import Mathlib

/-!
# A verification development for the snarkOS networking and ledger core

This file shallowly embeds the peer manager (`Peers`), the per-connection
peer actor (`Peer`), the RPC facade (`RpcImpl`) and the ledger state of the
snarkOS node, and proves properties of the embedded operations.

Conventions of the embedding:
* machine integers (`u16`, `u32`, `u64`, seconds) are modelled as `Nat`;
  the operations used by the embedded code (`max`, `saturating_sub`,
  comparisons and `elapsed`) agree with `Nat` arithmetic, with
  `Nat`-truncated subtraction standing in for `saturating_sub`;
* `SystemTime` and `Instant` values are seconds since the epoch (`Nat`),
  `UNIX_EPOCH` is `0`, and `t.elapsed()` at current time `now` is `now - t`;
* `HashMap K V` is an association list `List (K × V)` with no duplicate
  keys by construction (`insertA` erases the key first); `HashSet` is a
  `List` inserted into only when the element is absent;
* a tokio `mpsc` outbound router handle is modelled by a `Bool` recording
  whether sends on the channel succeed (`true`) or fail because the
  channel is closed (`false`);
* IP addresses are abstract `Nat` codes: `0` encodes an unspecified
  address, `1` a loopback address, and any other code a remote address.
-/

/-- Association list lookup (the embedding of `HashMap::get`). -/
def lookupA {K V : Type} [DecidableEq K] (k : K) : List (K × V) → Option V
  | [] => none
  | (k', v) :: m => if k' = k then some v else lookupA k m

/-- Association list erase (the embedding of `HashMap::remove`). -/
def eraseA {K V : Type} [DecidableEq K] (k : K) : List (K × V) → List (K × V)
  | [] => []
  | (k', v) :: m => if k' = k then eraseA k m else (k', v) :: eraseA k m

/-- Association list insert-or-replace (the embedding of `HashMap::insert`). -/
def insertA {K V : Type} [DecidableEq K] (k : K) (v : V) (m : List (K × V)) : List (K × V) :=
  (k, v) :: eraseA k m

/-- Keys of an association list (the embedding of `HashMap::keys`). -/
def keysA {K V : Type} (m : List (K × V)) : List K := m.map Prod.fst

/-- The embedding of `u32::saturating_sub` on `Nat` values below `2^32`
(on `Nat`, subtraction already saturates at zero). -/
def saturating_sub (a b : Nat) : Nat := a - b

/--
The embedding of the clipping performed by `RpcImpl::get_blocks` (and
`get_block_hashes`):
`let safe_start_height = max(start_block_height, end_block_height.saturating_sub(E::MAXIMUM_BLOCK_REQUEST - 1))`.
`maximumBlockRequest` stands for the environment constant `E::MAXIMUM_BLOCK_REQUEST`.
-/
def safe_start_height (maximumBlockRequest start_block_height end_block_height : Nat) : Nat :=
  max start_block_height (saturating_sub end_block_height (maximumBlockRequest - 1))

/-! ## Data model of the networking layer -/

/-- The embedding of `std::net::SocketAddr`: an abstract IP code and a port.
IP code `0` encodes an unspecified address, `1` a loopback address,
any other code a distinct remote address. -/
structure SockAddr where
  ip : Nat
  port : Nat
deriving DecidableEq, Repr

/-- The embedding of `IpAddr::is_unspecified`. -/
def SockAddr.is_unspecified (a : SockAddr) : Bool := a.ip = 0

/-- The embedding of `IpAddr::is_loopback`. -/
def SockAddr.is_loopback (a : SockAddr) : Bool := a.ip = 1

/-- A block as seen by the networking layer and the ledger: its height,
hash, previous hash, and the verdict of the (delegated) external validation.
Hashes are abstract `Nat` identifiers. -/
structure Block where
  height : Nat
  hash : Nat
  prevHash : Nat
  valid : Bool
deriving DecidableEq, Repr

/-- A block header as exchanged in `ChallengeResponse`: its height, an
abstract identifier, and the verdict of `BlockHeader::is_valid`. -/
structure BlockHeader where
  height : Nat
  id : Nat
  valid : Bool
deriving DecidableEq, Repr

/-- A transaction, identified by `Transaction::transaction_id`. -/
structure Transaction where
  txid : Nat
deriving DecidableEq, Repr

/-- The embedding of the wire message enum `Message<N, E>`.
`Pong` block locators are abstracted to the fork flag, which is all the
peer layer inspects. `Unused` carries no payload in the embedding. -/
inductive Message where
  | BlockRequest (start_block_height end_block_height : Nat)
  | BlockResponse (block : Block)
  | ChallengeRequest (version listener_port nonce block_height : Nat)
  | ChallengeResponse (header : BlockHeader)
  | Disconnect
  | PeerRequest
  | PeerResponse (addrs : List SockAddr)
  | Ping (version block_height : Nat) (block_hash : Nat)
  | Pong (is_fork : Option Bool)
  | UnconfirmedBlock (block : Block)
  | UnconfirmedTransaction (transaction : Transaction)
  | Unused
deriving DecidableEq, Repr

/-- The embedding of `NodeType`. -/
inductive NodeType where
  | Client
  | Miner
  | Sync
deriving DecidableEq, Repr

/-- The embedding of the `Environment` trait constants used by the peer
layer. `SYNC_NODES` and `PEER_NODES` are string allowlists in the source,
compared against `SocketAddr::to_string()`; since `Display` is injective
on socket addresses they are modelled as address lists. -/
structure Env where
  MESSAGE_VERSION : Nat
  MAXIMUM_NUMBER_OF_PEERS : Nat
  MINIMUM_NUMBER_OF_PEERS : Nat
  MAXIMUM_CANDIDATE_PEERS : Nat
  MAXIMUM_CONNECTION_FAILURES : Nat
  RADIO_SILENCE_IN_SECS : Nat
  SYNC_NODES : List SockAddr
  PEER_NODES : List SockAddr
  NODE_TYPE : NodeType
deriving DecidableEq, Repr

/-- The embedding of the `Peers<N, E>` struct. A connected peer maps to
its nonce and its outbound router, the router being modelled by a `Bool`
that records whether sends on the channel succeed. Timestamps are seconds
since `UNIX_EPOCH`. -/
structure Peers where
  local_ip : SockAddr
  local_nonce : Nat
  connected_peers : List (SockAddr × Nat × Bool)
  candidate_peers : List SockAddr
  restricted_peers : List (SockAddr × Nat)
  seen_inbound_connections : List (SockAddr × ((Nat × Nat) × Nat))
  seen_outbound_blocks : List (SockAddr × List (Nat × Nat))
  seen_outbound_connections : List (SockAddr × Nat)
  seen_outbound_transactions : List (SockAddr × List (Nat × Nat))
deriving DecidableEq, Repr

/-- The embedding of `Peers::new` (with an explicitly supplied nonce;
the `None` branch draws the nonce from the thread RNG). -/
def Peers.new (local_ip : SockAddr) (local_nonce : Nat) : Peers where
  local_ip := local_ip
  local_nonce := local_nonce
  connected_peers := []
  candidate_peers := []
  restricted_peers := []
  seen_inbound_connections := []
  seen_outbound_blocks := []
  seen_outbound_connections := []
  seen_outbound_transactions := []

/-- The embedding of `Peers::is_connected_to`. -/
def Peers.is_connected_to (s : Peers) (ip : SockAddr) : Bool :=
  (lookupA ip s.connected_peers).isSome

/-- The embedding of `Peers::is_restricted` at current time `now`. -/
def Peers.is_restricted (E : Env) (s : Peers) (now : Nat) (ip : SockAddr) : Bool :=
  match lookupA ip s.restricted_peers with
  | some timestamp => now - timestamp < E.RADIO_SILENCE_IN_SECS
  | none => false

/-- The embedding of the method `Peers::connected_peers` (the list of
connected addresses; named `connected_addrs` to avoid clashing with the
field of the same name). -/
def Peers.connected_addrs (s : Peers) : List SockAddr := keysA s.connected_peers

/-- The embedding of `Peers::num_connected_peers`. -/
def Peers.num_connected_peers (s : Peers) : Nat := s.connected_peers.length

/-- The embedding of `Peers::connected_nonces`. -/
def Peers.connected_nonces (s : Peers) : List Nat := s.connected_peers.map (fun p => p.2.1)

/-- The self-address test used by `Connect`, `PeerConnecting` and
`add_candidate_peers`:
`peer_ip == self.local_ip || (peer_ip.ip().is_unspecified() || peer_ip.ip().is_loopback()) && peer_ip.port() == self.local_ip.port()`. -/
def is_self_addr (local_ip peer_ip : SockAddr) : Bool :=
  peer_ip == local_ip ||
    (peer_ip.is_unspecified || peer_ip.is_loopback) && peer_ip.port == local_ip.port

/-- `HashSet::insert` on the list embedding of a set. -/
def insertS (a : SockAddr) (l : List SockAddr) : List SockAddr :=
  if a ∈ l then l else a :: l

/-- `HashSet::remove` on the list embedding of a set. -/
def removeS (a : SockAddr) (l : List SockAddr) : List SockAddr :=
  l.filter (fun x => decide (x ≠ a))

/-- The loop body of `Peers::add_candidate_peers`: insert one candidate
if it is not self, not connected, and a new candidate. -/
def Peers.add_candidate_one (st : Peers) (peer_ip : SockAddr) : Peers :=
  if !is_self_addr st.local_ip peer_ip && !st.is_connected_to peer_ip
      && !(st.candidate_peers.contains peer_ip) then
    { st with candidate_peers := peer_ip :: st.candidate_peers }
  else st

/-- The embedding of `Peers::add_candidate_peers`. -/
def Peers.add_candidate_peers (E : Env) (s : Peers) (peers : List SockAddr) : Peers :=
  if s.candidate_peers.length + peers.length < E.MAXIMUM_CANDIDATE_PEERS then
    (peers.take E.MAXIMUM_CANDIDATE_PEERS).foldl Peers.add_candidate_one s
  else s

/-- A record of a message actually handed to a peer's outbound channel
(the observable deliveries of `Peers::send`). -/
structure Sent where
  peer : SockAddr
  message : Message
  time : Nat
deriving DecidableEq, Repr

/-- The per-peer gossip dedup of `Peers::send`: compute whether the
message is ready to send and refresh the per-(peer, item) timestamp
(always, as in the source). -/
def Peers.dedupStep (E : Env) (now : Nat) (s : Peers) (peer : SockAddr) :
    Message → Peers × Bool
  | .UnconfirmedBlock block =>
    let seen_blocks := (lookupA peer s.seen_outbound_blocks).getD []
    let last_seen := (lookupA block.hash seen_blocks).getD 0
    let is_ready_to_send := decide (E.RADIO_SILENCE_IN_SECS < now - last_seen)
    let seen_blocks' := insertA block.hash now seen_blocks
    ({ s with seen_outbound_blocks := insertA peer seen_blocks' s.seen_outbound_blocks },
     is_ready_to_send)
  | .UnconfirmedTransaction transaction =>
    let seen_transactions := (lookupA peer s.seen_outbound_transactions).getD []
    let last_seen := (lookupA transaction.txid seen_transactions).getD 0
    let is_ready_to_send := decide (E.RADIO_SILENCE_IN_SECS < now - last_seen)
    let seen_transactions' := insertA transaction.txid now seen_transactions
    ({ s with
        seen_outbound_transactions := insertA peer seen_transactions' s.seen_outbound_transactions },
     is_ready_to_send)
  | _ => (s, true)

/-- The embedding of `Peers::send`. Returns the new state and the list of
messages handed to an outbound channel (empty when the message was
deduplicated away, the channel had been closed, or the peer was not
connected). -/
def Peers.send (E : Env) (now : Nat) (s : Peers) (peer : SockAddr) (message : Message) :
    Peers × List Sent :=
  match lookupA peer s.connected_peers with
  | some (_nonce, channelOpen) =>
    let step := Peers.dedupStep E now s peer message
    if step.2 then
      if channelOpen then (step.1, [⟨peer, message, now⟩])
      else ({ step.1 with connected_peers := eraseA peer step.1.connected_peers }, [])
    else (step.1, [])
  | none => (s, [])

/-- Sends `message` to `peer` and accumulates the delivered messages (the
body of the sending loops of `propagate` and of the `Heartbeat`
disconnect phase). -/
def Peers.sendAccum (E : Env) (now : Nat) (message : Message) (acc : Peers × List Sent)
    (peer : SockAddr) : Peers × List Sent :=
  let next := Peers.send E now acc.1 peer message
  (next.1, acc.2 ++ next.2)

/-- The embedding of `Peers::propagate`: send to every connected peer
except the sender. The iteration list is collected before the first send,
as in the source. -/
def Peers.propagate (E : Env) (now : Nat) (s : Peers) (sender : SockAddr) (message : Message) :
    Peers × List Sent :=
  s.connected_addrs.foldl
    (fun acc peer =>
      if peer ≠ sender then Peers.sendAccum E now message acc peer else acc)
    (s, [])

/-- The embedding of the `PeersRequest` enum. Oracle data replaces the
run-time artefacts of a request: `Connect` records whether the TCP dial
succeeds, `PeerConnecting` keeps only the remote address of the accepted
stream, and `PeerConnected` carries the `Bool` modelling its outbound
router. Ledger router handles are dropped. -/
inductive PeersRequest where
  | Connect (peer_ip : SockAddr) (dial_succeeds : Bool)
  | Heartbeat
  | MessagePropagate (sender : SockAddr) (message : Message)
  | MessageSend (peer_ip : SockAddr) (message : Message)
  | PeerConnecting (peer_ip : SockAddr)
  | PeerConnected (peer_ip : SockAddr) (peer_nonce : Nat) (outbound : Bool)
  | PeerDisconnected (peer_ip : SockAddr)
  | PeerRestricted (peer_ip : SockAddr)
  | SendPeerResponse (recipient : SockAddr)
  | ReceivePeerResponse (peer_ips : List SockAddr)
deriving DecidableEq, Repr

/-- The excess-disconnection phase of `Heartbeat`: when the number of
connected peers exceeds `MAXIMUM_NUMBER_OF_PEERS`, pick that many excess
peers, excluding the sync-node and peer-node allowlists, and send each a
`Disconnect`. -/
def Peers.heartbeatTrim (E : Env) (now : Nat) (s : Peers) : Peers × List Sent :=
  if E.MAXIMUM_NUMBER_OF_PEERS < s.num_connected_peers then
    let num_excess_peers := s.num_connected_peers - E.MAXIMUM_NUMBER_OF_PEERS
    let peer_ips_to_disconnect :=
      ((s.connected_peers.filter
          (fun p => decide (p.1 ∉ E.SYNC_NODES ∧ p.1 ∉ E.PEER_NODES))).take
        num_excess_peers).map Prod.fst
    peer_ips_to_disconnect.foldl (Peers.sendAccum E now .Disconnect) (s, [])
  else (s, [])

/-- The growth phase of `Heartbeat`: when below
`MINIMUM_NUMBER_OF_PEERS`, seed the candidate set with the sync nodes
(unless this node is a sync node) and the peer nodes, then broadcast
`PeerRequest`. The random `choose_multiple` selection only emits
`Connect` requests on the peers router and mutates no `Peers` state, so
it does not appear here. -/
def Peers.heartbeatGrow (E : Env) (now : Nat) (acc : Peers × List Sent) : Peers × List Sent :=
  let s1 := acc.1
  if s1.num_connected_peers < E.MINIMUM_NUMBER_OF_PEERS then
    let s2 := if E.NODE_TYPE ≠ NodeType.Sync then s1.add_candidate_peers E E.SYNC_NODES else s1
    let s3 := s2.add_candidate_peers E E.PEER_NODES
    let phase2 := Peers.propagate E now s3 s3.local_ip .PeerRequest
    (phase2.1, acc.2 ++ phase2.2)
  else acc

/-- The embedding of `Peers::update`, the single entry point for all
mutations of the `Peers` state, at current time `now`. Returns the new
state and the messages handed to outbound channels while processing the
request. Requests that the processing itself emits on the peers router
(`Connect` from `Heartbeat`, spawned `Peer::handler` tasks) reach `update`
as later requests of a trace and are not part of the returned value. -/
def Peers.update (E : Env) (now : Nat) (s : Peers) : PeersRequest → Peers × List Sent
  | .Connect peer_ip dial_succeeds =>
    if is_self_addr s.local_ip peer_ip then (s, [])
    else if E.MAXIMUM_NUMBER_OF_PEERS ≤ s.num_connected_peers then (s, [])
    else if s.is_connected_to peer_ip then (s, [])
    else if Peers.is_restricted E s now peer_ip then (s, [])
    else
      -- `entry(peer_ip).or_insert(UNIX_EPOCH)` materialises the entry
      let last_seen := (lookupA peer_ip s.seen_outbound_connections).getD 0
      let s0 :=
        { s with seen_outbound_connections := insertA peer_ip last_seen s.seen_outbound_connections }
      if now - last_seen < E.RADIO_SILENCE_IN_SECS then (s0, [])
      else
        let s1 :=
          { s0 with seen_outbound_connections := insertA peer_ip now s0.seen_outbound_connections }
        if dial_succeeds then (s1, [])  -- `Peer::handler` spawned; no further `Peers` mutation
        else ({ s1 with candidate_peers := removeS peer_ip s1.candidate_peers }, [])
  | .Heartbeat => Peers.heartbeatGrow E now (Peers.heartbeatTrim E now s)
  | .MessagePropagate sender message => Peers.propagate E now s sender message
  | .MessageSend peer_ip message => Peers.send E now s peer_ip message
  | .PeerConnecting peer_ip =>
    if is_self_addr s.local_ip peer_ip then (s, [])
    else if E.MAXIMUM_NUMBER_OF_PEERS ≤ s.num_connected_peers then (s, [])
    else if s.is_connected_to peer_ip then (s, [])
    else if Peers.is_restricted E s now peer_ip then (s, [])
    else
      let peer_lookup : SockAddr :=
        if peer_ip.is_loopback then peer_ip else ⟨peer_ip.ip, 65535⟩
      let peer_port := peer_ip.port
      let entry0 := (lookupA peer_lookup s.seen_inbound_connections).getD ((peer_port, 0), 0)
      -- reset the tracker entry if the predefined elapsed time has passed
      let entry1 :=
        if E.RADIO_SILENCE_IN_SECS < now - entry0.2 then ((peer_port, 0), now) else entry0
      if entry1.1.1 < peer_port ∧ E.MAXIMUM_CONNECTION_FAILURES < entry1.1.2 then
        ({ s with seen_inbound_connections := insertA peer_lookup entry1 s.seen_inbound_connections },
         [])
      else
        ({ s with
            seen_inbound_connections :=
              insertA peer_lookup ((entry1.1.1, entry1.1.2 + 1), entry1.2)
                s.seen_inbound_connections },
         [])
  | .PeerConnected peer_ip peer_nonce outbound =>
    ({ s with
        connected_peers := insertA peer_ip (peer_nonce, outbound) s.connected_peers,
        candidate_peers := removeS peer_ip s.candidate_peers },
     [])
  | .PeerDisconnected peer_ip =>
    ({ s with
        connected_peers := eraseA peer_ip s.connected_peers,
        candidate_peers := insertS peer_ip s.candidate_peers,
        seen_outbound_blocks := eraseA peer_ip s.seen_outbound_blocks,
        seen_outbound_transactions := eraseA peer_ip s.seen_outbound_transactions },
     [])
  | .PeerRestricted peer_ip =>
    ({ s with restricted_peers := insertA peer_ip now s.restricted_peers }, [])
  | .SendPeerResponse recipient =>
    Peers.send E now s recipient (.PeerResponse s.connected_addrs)
  | .ReceivePeerResponse peer_ips => (s.add_candidate_peers E peer_ips, [])

/-- The disjointness invariant of the peer registry: no address is both
connected and a candidate. -/
def Peers.disjointCC (s : Peers) : Prop :=
  ∀ a, s.is_connected_to a = true → a ∉ s.candidate_peers

/-- The dedup verdict computed inside `Peers::send` (`is_ready_to_send`):
gossip messages are ready only after `RADIO_SILENCE_IN_SECS` since the
same item was last sent to this peer; every other message is ready. -/
def Peers.is_ready_to_send (E : Env) (now : Nat) (s : Peers) (peer : SockAddr) :
    Message → Bool
  | .UnconfirmedBlock block =>
    decide (E.RADIO_SILENCE_IN_SECS <
      now - (lookupA block.hash ((lookupA peer s.seen_outbound_blocks).getD [])).getD 0)
  | .UnconfirmedTransaction transaction =>
    decide (E.RADIO_SILENCE_IN_SECS <
      now - (lookupA transaction.txid ((lookupA peer s.seen_outbound_transactions).getD [])).getD 0)
  | _ => true

/-- Runs a trace of timestamped requests through `Peers::update`. -/
def Peers.run (E : Env) (s : Peers) : List (Nat × PeersRequest) → Peers
  | [] => s
  | (t, r) :: rest => Peers.run E (Peers.update E t s r).1 rest

/-! ## The peer connection actor -/

/-- What `outbound_socket.next()` yields: `Some(Ok(message))`,
`Some(Err(error))` (a codec or framing error), or `None` (end of stream). -/
inductive SocketIn where
  | frame (message : Message)
  | failure
  | closed
deriving DecidableEq, Repr

/-- The embedding of the `LedgerRequest` variants emitted by the peer layer. -/
inductive LedgerRequest where
  | BlockRequest (peer_ip : SockAddr) (start_block_height end_block_height : Nat)
  | BlockResponse (peer_ip : SockAddr) (block : Block)
  | Disconnect (peer_ip : SockAddr)
  | Ping (peer_ip : SockAddr) (block_height : Nat) (block_hash : Nat)
  | Pong (peer_ip : SockAddr) (is_fork : Option Bool)
  | SendPing (peer_ip : SockAddr)
  | UnconfirmedBlock (peer_ip : SockAddr) (block : Block)
  | UnconfirmedTransaction (peer_ip : SockAddr) (transaction : Transaction)
deriving DecidableEq, Repr

/-- An effect of the peer actor: a request routed to the ledger, a request
routed to the peers router, or a message written to the socket. -/
inductive PeerAction where
  | toLedger (r : LedgerRequest)
  | toPeers (r : PeersRequest)
  | toSocket (m : Message)
deriving DecidableEq, Repr

/-- The embedding of the `Peer` struct (the per-connection state). The
socket and channel handles live outside the state. -/
structure PeerState where
  listener_ip : SockAddr
  version : Nat
  last_seen : Nat
  seen_inbound_blocks : List (Nat × Nat)
  seen_inbound_transactions : List (Nat × Nat)
deriving DecidableEq, Repr

/-- The embedding of `Peer::handshake`. `peer_addr` is the address
returned by `peer_addr()` on the socket; `first` and `second` are the two
inbound items read from the socket; `listener_port_reachable` records
whether the verification dial to the advertised listener port succeeds
within `CONNECTION_TIMEOUT` (it is consulted only when the source port
differs from the advertised one). Returns the peer's listener address and
nonce on success. `CHALLENGE_HEIGHT = 0`. -/
def Peer.handshake (E : Env) (local_nonce : Nat) (connected_nonces : List Nat)
    (peer_addr : SockAddr) (genesis_block_header : BlockHeader)
    (first second : SocketIn) (listener_port_reachable : Bool) :
    Except String (SockAddr × Nat) :=
  match first with
  | .frame (.ChallengeRequest version listener_port peer_nonce _block_height) =>
    -- ensure the message protocol version is not outdated
    if version < E.MESSAGE_VERSION then .error "outdated version"
    else
      let peer_ip : SockAddr :=
        if peer_addr.port ≠ listener_port then { peer_addr with port := listener_port }
        else peer_addr
      -- verify the listener port
      if peer_addr.port ≠ listener_port ∧ listener_port_reachable = false then
        .error "unable to reach the listener port"
      -- ensure the peer is not this node
      else if local_nonce = peer_nonce then .error "attempted to connect to self"
      -- ensure the peer is not already connected to this node
      else if peer_nonce ∈ connected_nonces then .error "already connected to this nonce"
      else
        match second with
        | .frame (.ChallengeResponse block_header) =>
          if block_header.height = 0 ∧ block_header = genesis_block_header ∧
              block_header.valid = true then
            .ok (peer_ip, peer_nonce)
          else .error "challenge response failed"
        | .frame _ => .error "expected challenge response"
        | .failure => .error "failed to get challenge response"
        | .closed => .error "peer has disconnected"
  | .frame _ => .error "expected challenge request"
  | .failure => .error "failed to get challenge request"
  | .closed => .error "dropped prior to challenge request"

/-- The embedding of `Peer::new`: perform the handshake and, on success,
route the first `SendPing` to the ledger and register the peer through a
`PeerConnected` request carrying the new outbound router (`outbound`). -/
def Peer.new (E : Env) (now : Nat) (local_nonce : Nat) (connected_nonces : List Nat)
    (peer_addr : SockAddr) (genesis_block_header : BlockHeader)
    (first second : SocketIn) (listener_port_reachable outbound : Bool) :
    Except String (PeerState × List PeerAction) :=
  match Peer.handshake E local_nonce connected_nonces peer_addr genesis_block_header
      first second listener_port_reachable with
  | .error e => .error e
  | .ok (peer_ip, peer_nonce) =>
    .ok ({ listener_ip := peer_ip, version := 0, last_seen := now,
           seen_inbound_blocks := [], seen_inbound_transactions := [] },
         [.toLedger (.SendPing peer_ip),
          .toPeers (.PeerConnected peer_ip peer_nonce outbound)])

/-- An event consumed by one iteration of the `tokio::select!` loop in
`Peer::handler`: a message arriving on the outbound channel, or an item
read from the socket. -/
inductive PeerEvent where
  | outboundMessage (message : Message)
  | socket (item : SocketIn)
deriving DecidableEq, Repr

/-- The message dispatch of the processing loop of `Peer::handler`
(executed on `Some(Ok(message))` after the silence check and the
`last_seen` refresh; `p1` already carries `last_seen = now`). -/
def Peer.dispatchMessage (E : Env) (now : Nat) (p1 : PeerState) :
    Message → PeerState × List PeerAction × Bool
  | .BlockRequest a b => (p1, [.toLedger (.BlockRequest p1.listener_ip a b)], true)
  | .BlockResponse block => (p1, [.toLedger (.BlockResponse p1.listener_ip block)], true)
  | .ChallengeRequest .. => (p1, [], false)  -- peer is not following the protocol
  | .ChallengeResponse .. => (p1, [], false)
  | .Disconnect => (p1, [.toLedger (.Disconnect p1.listener_ip)], false)
  | .PeerRequest => (p1, [.toPeers (.SendPeerResponse p1.listener_ip)], true)
  | .PeerResponse addrs => (p1, [.toPeers (.ReceivePeerResponse addrs)], true)
  | .Ping version block_height block_hash =>
    if version < E.MESSAGE_VERSION then (p1, [], false)
    else ({ p1 with version := version },
          [.toLedger (.Ping p1.listener_ip block_height block_hash)], true)
  | .Pong is_fork => (p1, [.toLedger (.Pong p1.listener_ip is_fork)], true)
  | .UnconfirmedBlock block =>
    -- drop the peer if they have sent too many unconfirmed blocks recently
    let frequency :=
      (p1.seen_inbound_blocks.filter (fun e => decide (now - e.2 ≤ 5))).length
    if 5 ≤ frequency then (p1, [.toPeers (.PeerRestricted p1.listener_ip)], false)
    else
      let last_seen := (lookupA block.hash p1.seen_inbound_blocks).getD 0
      let is_ready_to_route := decide (E.RADIO_SILENCE_IN_SECS < now - last_seen)
      let p2 := { p1 with seen_inbound_blocks := insertA block.hash now p1.seen_inbound_blocks }
      (p2,
       if is_ready_to_route then [.toLedger (.UnconfirmedBlock p2.listener_ip block)] else [],
       true)
  | .UnconfirmedTransaction transaction =>
    let frequency :=
      (p1.seen_inbound_transactions.filter (fun e => decide (now - e.2 ≤ 5))).length
    if 500 ≤ frequency then (p1, [.toPeers (.PeerRestricted p1.listener_ip)], false)
    else
      let last_seen := (lookupA transaction.txid p1.seen_inbound_transactions).getD 0
      let is_ready_to_route := decide (E.RADIO_SILENCE_IN_SECS < now - last_seen)
      let p2 :=
        { p1 with
            seen_inbound_transactions :=
              insertA transaction.txid now p1.seen_inbound_transactions }
      (p2,
       if is_ready_to_route then
         [.toLedger (.UnconfirmedTransaction p2.listener_ip transaction)]
       else [],
       true)
  | .Unused => (p1, [], false)  -- peer is not following the protocol

/-- The embedding of one iteration of the processing loop of
`Peer::handler` at current time `now`. Returns the new peer state, the
actions emitted, and `true` when the loop continues (`false` when it
breaks). -/
def Peer.handlerStep (E : Env) (now : Nat) (p : PeerState) :
    PeerEvent → PeerState × List PeerAction × Bool
  | .outboundMessage message =>
    -- disconnect if the peer has not communicated back within the predefined time
    if E.RADIO_SILENCE_IN_SECS < now - p.last_seen then (p, [], false)
    else (p, [.toSocket message], true)
  | .socket .failure => (p, [], true)  -- `Some(Err(error))` is only logged
  | .socket .closed => (p, [], false)  -- the stream has been disconnected
  | .socket (.frame message) =>
    if E.RADIO_SILENCE_IN_SECS < now - p.last_seen then (p, [], false)
    else Peer.dispatchMessage E now { p with last_seen := now } message

/-- Runs the processing loop of `Peer::handler` over a list of timestamped
events. Returns the final peer state, the emitted actions, and `true` when
the loop has exited (in which case the trailing `Disconnect` is routed to
the ledger, as after the loop in the source); `false` means the loop is
still awaiting events. -/
def Peer.handlerRun (E : Env) (p : PeerState) :
    List (Nat × PeerEvent) → PeerState × List PeerAction × Bool
  | [] => (p, [], false)
  | (t, ev) :: rest =>
    let step := Peer.handlerStep E t p ev
    if step.2.2 then
      let next := Peer.handlerRun E step.1 rest
      (next.1, step.2.1 ++ next.2.1, next.2.2)
    else (step.1, step.2.1 ++ [.toLedger (.Disconnect step.1.listener_ip)], true)

/-! ## Observables of the gossip dedup in `Peers::send` -/

/-- The dedup key of a delivered message: the target peer together with
the item identity (`true` tags a block hash, `false` a transaction ID).
`none` for messages that are not gossip. -/
def sentKey (x : Sent) : Option (SockAddr × Bool × Nat) :=
  match x.message with
  | .UnconfirmedBlock block => some (x.peer, true, block.hash)
  | .UnconfirmedTransaction transaction => some (x.peer, false, transaction.txid)
  | _ => none

/-- `true` on the two gossip message variants. -/
def Message.gossip : Message → Bool
  | .UnconfirmedBlock _ => true
  | .UnconfirmedTransaction _ => true
  | _ => false

/-- The last-sent timestamp recorded for a dedup key in
`seen_outbound_blocks` / `seen_outbound_transactions` (`0 = UNIX_EPOCH`
when absent, matching `or_insert(UNIX_EPOCH)`). -/
def lastSeenOut (s : Peers) (k : SockAddr × Bool × Nat) : Nat :=
  if k.2.1 then (lookupA k.2.2 ((lookupA k.1 s.seen_outbound_blocks).getD [])).getD 0
  else (lookupA k.2.2 ((lookupA k.1 s.seen_outbound_transactions).getD [])).getD 0

/-- A sequence of `MessageSend` requests processed in order: folds
`Peers::send` over timestamped `(time, peer, message)` triples,
accumulating the delivered messages. -/
def Peers.sendMany (E : Env) (s : Peers) :
    List (Nat × SockAddr × Message) → Peers × List Sent
  | [] => (s, [])
  | (t, p, m) :: rest =>
    let first := Peers.send E t s p m
    let next := Peers.sendMany E first.1 rest
    (next.1, first.2 ++ next.2)

/-- Two deliveries of the same gossip item to the same peer are more than
`RADIO_SILENCE_IN_SECS` apart. -/
def gossipGapKey (E : Env) (x y : Sent) : Prop :=
  ∀ k, sentKey x = some k → sentKey y = some k →
    E.RADIO_SILENCE_IN_SECS < y.time - x.time

/-- Every logged delivery is no newer than the recorded last-sent
timestamp of its dedup key. -/
def SendLogInv (s : Peers) (log : List Sent) : Prop :=
  ∀ x ∈ log, ∀ k, sentKey x = some k → x.time ≤ lastSeenOut s k

/-! ## The ledger state

The `LedgerState` implementation lives in the `snarkos-ledger` crate,
whose sources are not part of this tree (only its tests are); the model
below follows the specification of `add_next_block` and
`revert_to_block_height`. -/

/-- Modelled from the spec: the canonical chain of a `LedgerState`, an
ordered sequence of blocks indexed by height with the genesis block at
index 0. The missing piece is the `LedgerState` struct of the
`snarkos-ledger` crate. -/
abbrev Chain := List Block

/-- Modelled from the spec: the latest (tip) block of the canonical chain
(`g` is the genesis block, returned for the degenerate empty chain, which
never arises). -/
def latest_block (g : Block) : Chain → Block
  | [] => g
  | b :: rest => latest_block b rest

/-- Modelled from the spec: `LedgerState::latest_block_height`. -/
def latest_height (g : Block) (c : Chain) : Nat := (latest_block g c).height

/-- Modelled from the spec: `LedgerState::latest_block_hash`. -/
def latest_hash (g : Block) (c : Chain) : Nat := (latest_block g c).hash

/-- Modelled from the spec: `LedgerState::add_next_block` accepts `b` iff
`b.height == latest_height + 1`, `b.previous_hash == latest_hash` and the
block passes the delegated external validation, and then appends it. -/
def add_next_block (g : Block) (c : Chain) (b : Block) : Option Chain :=
  if b.height = latest_height g c + 1 ∧ b.prevHash = latest_hash g c ∧ b.valid = true then
    some (c ++ [b])
  else none

/-- A ledger reached from genesis `g` by a sequence of successful
`add_next_block` calls. -/
def buildChain (g : Block) (bs : List Block) : Option Chain :=
  bs.foldlM (add_next_block g) [g]

/-- Modelled from the spec: `LedgerState::revert_to_block_height h`
requires `h ≤ latest_height`, truncates the chain to heights `[0, h]` and
returns the removed blocks in ascending height order. -/
def revert_to_block_height (g : Block) (c : Chain) (h : Nat) : Option (Chain × List Block) :=
  if h ≤ latest_height g c then some (c.take (h + 1), c.drop (h + 1)) else none

/-- Modelled from the spec: the ledger root is a Merkle accumulator over
the sequence of canonical block hashes; the accumulator is abstracted to
a deterministic injective-style fold of the hash sequence. -/
def ledgerRoot (c : Chain) : Nat :=
  (c.map Block.hash).foldl (fun acc h => acc * 1000003 + h + 1) 0

/-- Modelled from the spec: block locators always pin genesis (hash only)
and the tip; the intermediate sampling is left to the implementer and is
omitted, as `C8` only compares locators of equal chains. -/
def latest_block_locators (g : Block) (c : Chain) : List (Nat × Nat) :=
  if latest_height g c = 0 then [(0, (c.headD g).hash)]
  else [(latest_height g c, latest_hash g c), (0, (c.headD g).hash)]

/-- The heights of the chain are consecutive starting from `n`. -/
def heightsFrom (n : Nat) : Chain → Prop
  | [] => True
  | b :: rest => b.height = n ∧ heightsFrom (n + 1) rest

/-- All heights of the chain are consecutive from 0. -/
def heights_consecutive (c : Chain) : Prop :=
  ∀ i (hi : i < c.length), (c.get ⟨i, hi⟩).height = i

/-! ## Sample values used by witnesses and counterexamples -/

/-- A sample environment: `MESSAGE_VERSION = 12`, `MAX_PEERS = 21`,
`MIN_PEERS = 2`, `MAX_CANDIDATES = 1024`, `RADIO_SILENCE = 150`. -/
def sampleEnv : Env where
  MESSAGE_VERSION := 12
  MAXIMUM_NUMBER_OF_PEERS := 21
  MINIMUM_NUMBER_OF_PEERS := 2
  MAXIMUM_CANDIDATE_PEERS := 1024
  MAXIMUM_CONNECTION_FAILURES := 5
  RADIO_SILENCE_IN_SECS := 150
  SYNC_NODES := []
  PEER_NODES := []
  NODE_TYPE := .Client

/-- A sample remote peer address. -/
def addrA : SockAddr := ⟨7, 4130⟩

/-- A second sample remote peer address. -/
def addrB : SockAddr := ⟨8, 4131⟩

/-- The local address used by sample states. -/
def addrLocal : SockAddr := ⟨5, 4132⟩

/-- A sample `Peers` state with `addrA` connected over an open channel. -/
def samplePeersOpen : Peers :=
  { Peers.new addrLocal 99 with connected_peers := [(addrA, (41, true))] }

/-- A sample `Peers` state with `addrA` connected over a closed channel. -/
def samplePeersClosed : Peers :=
  { Peers.new addrLocal 99 with connected_peers := [(addrA, (41, false))] }

/-- A sample `Peers` state with both `addrA` and `addrB` connected over
open channels. -/
def samplePeersTwo : Peers :=
  { Peers.new addrLocal 99 with connected_peers := [(addrA, (41, true)), (addrB, (42, true))] }

/-- A sample peer-actor state for `addrA`. -/
def samplePeerState : PeerState where
  listener_ip := addrA
  version := 12
  last_seen := 1000
  seen_inbound_blocks := []
  seen_inbound_transactions := []

/-- Six distinct sample unconfirmed blocks. -/
def sampleBlock (i : Nat) : Block := ⟨50 + i, 700 + i, 600 + i, true⟩

/-- The six timestamped events delivering `sampleBlock 1`..`sampleBlock 6`
within five seconds. -/
def sampleSpam : List (Nat × PeerEvent) :=
  (List.range 6).map (fun i => (1000 + i, .socket (.frame (.UnconfirmedBlock (sampleBlock (i + 1))))))

/-! ## Lemmas about the association list embedding -/

theorem lookupA_eraseA {K V : Type} [DecidableEq K] (k k' : K) (m : List (K × V)) :
    lookupA k' (eraseA k m) = if k = k' then none else lookupA k' m := by
  induction m with
  | nil => simp [eraseA, lookupA]
  | cons kv m ih =>
    obtain ⟨a, b⟩ := kv
    simp only [eraseA, lookupA]
    by_cases hk : a = k
    · rw [if_pos hk, ih]
      by_cases h : k = k'
      · simp [h]
      · rw [if_neg h, if_neg h, if_neg (fun hak => h (hk.symm.trans hak))]
    · rw [if_neg hk]
      simp only [lookupA]
      by_cases ha : a = k'
      · rw [if_pos ha, if_neg (fun hkk => hk (ha.trans hkk.symm)), if_pos ha]
      · rw [if_neg ha, if_neg ha, ih]

theorem lookupA_insertA {K V : Type} [DecidableEq K] (k k' : K) (v : V) (m : List (K × V)) :
    lookupA k' (insertA k v m) = if k = k' then some v else lookupA k' m := by
  simp only [insertA, lookupA]
  by_cases h : k = k'
  · simp [h]
  · rw [if_neg h, if_neg h, lookupA_eraseA, if_neg h]

/-! ## C7: RPC block-request clipping -/

/-- C7 -- For every pair of heights `(start, end)`, the RPC `get_blocks`
endpoint queries the ledger from the clipped start height
`start' = max(start, end − MAX_BLOCK_REQUEST + 1)` with the subtraction
saturating at 0, and the half-open request `[start', end)` spans at most
`MAX_BLOCK_REQUEST` blocks. -/
theorem get_blocks_clips_request (maxReq s e : Nat) (hmax : 1 ≤ maxReq) :
    safe_start_height maxReq s e = max s (e + 1 - maxReq) ∧
    e - safe_start_height maxReq s e < maxReq := by
  constructor
  · unfold safe_start_height saturating_sub
    congr 1
    omega
  · unfold safe_start_height saturating_sub
    omega

/-- Witness for `get_blocks_clips_request` at `MAX_BLOCK_REQUEST = 50`,
`start = 3`, `end = 100`. -/
theorem get_blocks_clips_request_witness :
    safe_start_height 50 3 100 = max 3 (100 + 1 - 50) ∧
    100 - safe_start_height 50 3 100 < 50 :=
  get_blocks_clips_request 50 3 100 (by decide)

/-! ## C1: handling of read errors and of `Unused` in the peer loop -/

theorem handlerStep_listener_ip (E : Env) (now : Nat) (p : PeerState) (ev : PeerEvent) :
    (Peer.handlerStep E now p ev).1.listener_ip = p.listener_ip := by
  cases ev with
  | outboundMessage m =>
    simp only [Peer.handlerStep]
    split <;> rfl
  | socket item =>
    cases item with
    | failure => rfl
    | closed => rfl
    | frame message =>
      simp only [Peer.handlerStep]
      split
      · rfl
      · cases message <;> simp only [Peer.dispatchMessage] <;> (first | rfl | (split <;> rfl))

theorem handlerRun_exit_emits_disconnect (E : Env) (p : PeerState)
    (evs : List (Nat × PeerEvent)) :
    (Peer.handlerRun E p evs).2.2 = true →
    PeerAction.toLedger (.Disconnect p.listener_ip) ∈ (Peer.handlerRun E p evs).2.1 := by
  induction evs generalizing p with
  | nil => intro h; simp [Peer.handlerRun] at h
  | cons e rest ih =>
    obtain ⟨t, ev⟩ := e
    simp only [Peer.handlerRun]
    split
    · intro h
      have hmem := ih (Peer.handlerStep E t p ev).1 h
      rw [handlerStep_listener_ip] at hmem
      exact List.mem_append_right _ hmem
    · intro _
      rw [← handlerStep_listener_ip E t p ev]
      exact List.mem_append_right _ (List.mem_singleton.mpr rfl)

/-- C1 (counterexample) -- at the sample peer state, a codec/framing error
(`Some(Err(..))`) read from the socket leaves the processing loop running
(`false` in the last component: the loop has not exited) and emits no
action at all — in particular no disconnect — refuting the claim that a
codec or framing error makes the loop exit and raises a disconnect. -/
theorem read_error_does_not_exit_cex :
    Peer.handlerRun sampleEnv samplePeerState [(1001, .socket .failure)] =
      (samplePeerState, [], false) := by
  decide

/-- C1 (amended) -- a codec or framing error on the inbound socket is only
logged: the loop continues with the peer state unchanged and no action
emitted. The loop does exit on end-of-stream and on receipt of an `Unused`
variant, and whenever the loop exits a `Disconnect` for this peer is
routed to the ledger. -/
theorem read_error_logged_unused_exits (E : Env) (now : Nat) (p : PeerState)
    (evs : List (Nat × PeerEvent)) :
    Peer.handlerStep E now p (.socket .failure) = (p, [], true) ∧
    (Peer.handlerStep E now p (.socket .closed)).2.2 = false ∧
    (Peer.handlerStep E now p (.socket (.frame .Unused))).2.2 = false ∧
    ((Peer.handlerRun E p evs).2.2 = true →
      PeerAction.toLedger (.Disconnect p.listener_ip) ∈ (Peer.handlerRun E p evs).2.1) := by
  refine ⟨rfl, rfl, ?_, handlerRun_exit_emits_disconnect E p evs⟩
  simp only [Peer.handlerStep]
  split <;> rfl

/-- Witness for `read_error_logged_unused_exits`: at the sample state, an
`Unused` frame exits the loop and the `Disconnect` is routed. -/
theorem read_error_logged_unused_exits_witness :
    PeerAction.toLedger (.Disconnect samplePeerState.listener_ip) ∈
      (Peer.handlerRun sampleEnv samplePeerState
        [(1001, .socket (.frame .Unused))]).2.1 :=
  (read_error_logged_unused_exits sampleEnv 1001 samplePeerState
      [(1001, .socket (.frame .Unused))]).2.2.2 (by decide)

/-! ## C2: handshake rejection of outdated versions and bad nonces -/

/-- C2 -- For every handshake execution, if the peer's `ChallengeRequest`
carries a version strictly below `MESSAGE_VERSION`, or a nonce equal to
the local nonce, or a nonce already among the nonces of currently
connected peers, the handshake returns an error, and `Peer::new` (which
alone emits the `PeerConnected` registration) fails as well, so the peer
is never registered as connected. -/
theorem handshake_rejects_bad_version_or_nonce
    (E : Env) (now local_nonce : Nat) (connected_nonces : List Nat)
    (peer_addr : SockAddr) (genesis : BlockHeader) (second : SocketIn)
    (reachable outbound : Bool)
    (version listener_port peer_nonce block_height : Nat)
    (hbad : version < E.MESSAGE_VERSION ∨ peer_nonce = local_nonce ∨
      peer_nonce ∈ connected_nonces) :
    (Peer.handshake E local_nonce connected_nonces peer_addr genesis
        (.frame (.ChallengeRequest version listener_port peer_nonce block_height))
        second reachable).isOk = false ∧
    (Peer.new E now local_nonce connected_nonces peer_addr genesis
        (.frame (.ChallengeRequest version listener_port peer_nonce block_height))
        second reachable outbound).isOk = false := by
  have h1 : (Peer.handshake E local_nonce connected_nonces peer_addr genesis
      (.frame (.ChallengeRequest version listener_port peer_nonce block_height))
      second reachable).isOk = false := by
    simp only [Peer.handshake]
    by_cases hv : version < E.MESSAGE_VERSION
    · rw [if_pos hv]; rfl
    · rw [if_neg hv]
      by_cases hp : peer_addr.port ≠ listener_port ∧ reachable = false
      · rw [if_pos hp]; rfl
      · rw [if_neg hp]
        by_cases hs : local_nonce = peer_nonce
        · rw [if_pos hs]; rfl
        · rw [if_neg hs]
          by_cases hd : peer_nonce ∈ connected_nonces
          · rw [if_pos hd]; rfl
          · exfalso
            rcases hbad with h | h | h
            exacts [hv h, hs h.symm, hd h]
  refine ⟨h1, ?_⟩
  simp only [Peer.new]
  cases hh : Peer.handshake E local_nonce connected_nonces peer_addr genesis
      (.frame (.ChallengeRequest version listener_port peer_nonce block_height))
      second reachable with
  | error e => rfl
  | ok v => rw [hh] at h1; exact absurd h1 (by simp [Except.isOk, Except.toBool])

/-- Witness for `handshake_rejects_bad_version_or_nonce`: a challenge
request advertising the local nonce (self-connection) is rejected. -/
theorem handshake_rejects_bad_version_or_nonce_witness :
    (Peer.handshake sampleEnv 99 [41] addrB ⟨0, 77, true⟩
        (.frame (.ChallengeRequest 12 4131 99 0))
        (.frame (.ChallengeResponse ⟨0, 77, true⟩)) true).isOk = false ∧
    (Peer.new sampleEnv 1000 99 [41] addrB ⟨0, 77, true⟩
        (.frame (.ChallengeRequest 12 4131 99 0))
        (.frame (.ChallengeResponse ⟨0, 77, true⟩)) true true).isOk = false :=
  handshake_rejects_bad_version_or_nonce sampleEnv 1000 99 [41] addrB ⟨0, 77, true⟩
    (.frame (.ChallengeResponse ⟨0, 77, true⟩)) true true 12 4131 99 0
    (Or.inr (Or.inl rfl))

/-! ## Structural lemmas about `Peers::send` and its sending loops -/

theorem dedupStep_connected (E : Env) (now : Nat) (s : Peers) (p : SockAddr) (m : Message) :
    (Peers.dedupStep E now s p m).1.connected_peers = s.connected_peers := by
  cases m <;> rfl

theorem dedupStep_candidate (E : Env) (now : Nat) (s : Peers) (p : SockAddr) (m : Message) :
    (Peers.dedupStep E now s p m).1.candidate_peers = s.candidate_peers := by
  cases m <;> rfl

theorem dedupStep_local_ip (E : Env) (now : Nat) (s : Peers) (p : SockAddr) (m : Message) :
    (Peers.dedupStep E now s p m).1.local_ip = s.local_ip := by
  cases m <;> rfl

theorem dedupStep_restricted (E : Env) (now : Nat) (s : Peers) (p : SockAddr) (m : Message) :
    (Peers.dedupStep E now s p m).1.restricted_peers = s.restricted_peers := by
  cases m <;> rfl

/-- `Peers::send` leaves `connected_peers` unchanged unless the outbound
channel of the target peer had been closed, in which case the target is
removed. -/
theorem send_connected_cases (E : Env) (now : Nat) (s : Peers) (p : SockAddr) (m : Message) :
    (Peers.send E now s p m).1.connected_peers = s.connected_peers ∨
    ((∃ n, lookupA p s.connected_peers = some (n, false)) ∧
      (Peers.send E now s p m).1.connected_peers = eraseA p s.connected_peers) := by
  unfold Peers.send
  cases h : lookupA p s.connected_peers with
  | none => exact Or.inl rfl
  | some v =>
    obtain ⟨n, ch⟩ := v
    cases ch with
    | true =>
      simp only []
      split
      · exact Or.inl (dedupStep_connected E now s p m)
      · exact Or.inl (dedupStep_connected E now s p m)
    | false =>
      simp only []
      split
      · refine Or.inr ⟨⟨n, rfl⟩, ?_⟩
        rw [if_neg (by decide : ¬(false = true))]
        simp [dedupStep_connected]
      · exact Or.inl (dedupStep_connected E now s p m)

theorem send_candidate (E : Env) (now : Nat) (s : Peers) (p : SockAddr) (m : Message) :
    (Peers.send E now s p m).1.candidate_peers = s.candidate_peers := by
  unfold Peers.send
  cases h : lookupA p s.connected_peers with
  | none => rfl
  | some v =>
    obtain ⟨n, ch⟩ := v
    simp only []
    split
    · split
      · exact dedupStep_candidate E now s p m
      · exact dedupStep_candidate E now s p m
    · exact dedupStep_candidate E now s p m

theorem send_local_ip (E : Env) (now : Nat) (s : Peers) (p : SockAddr) (m : Message) :
    (Peers.send E now s p m).1.local_ip = s.local_ip := by
  unfold Peers.send
  cases h : lookupA p s.connected_peers with
  | none => rfl
  | some v =>
    obtain ⟨n, ch⟩ := v
    simp only []
    split
    · split
      · exact dedupStep_local_ip E now s p m
      · exact dedupStep_local_ip E now s p m
    · exact dedupStep_local_ip E now s p m

theorem send_restricted (E : Env) (now : Nat) (s : Peers) (p : SockAddr) (m : Message) :
    (Peers.send E now s p m).1.restricted_peers = s.restricted_peers := by
  unfold Peers.send
  cases h : lookupA p s.connected_peers with
  | none => rfl
  | some v =>
    obtain ⟨n, ch⟩ := v
    simp only []
    split
    · split
      · exact dedupStep_restricted E now s p m
      · exact dedupStep_restricted E now s p m
    · exact dedupStep_restricted E now s p m

/-- A peer connected over an open channel stays connected (with the same
entry) through any `Peers::send`. -/
theorem send_keeps_open (E : Env) (now : Nat) (s : Peers) (p : SockAddr) (m : Message)
    (a : SockAddr) (n : Nat) (h : lookupA a s.connected_peers = some (n, true)) :
    lookupA a (Peers.send E now s p m).1.connected_peers = some (n, true) := by
  rcases send_connected_cases E now s p m with hc | ⟨⟨n', hn'⟩, hc⟩
  · rw [hc]; exact h
  · rw [hc, lookupA_eraseA]
    by_cases hpa : p = a
    · rw [hpa] at hn'; rw [h] at hn'; cases hn'
    · rw [if_neg hpa]; exact h

/-- `Peers::send` never adds connected peers. -/
theorem send_connected_subset (E : Env) (now : Nat) (s : Peers) (p : SockAddr) (m : Message)
    (a : SockAddr) (h : (Peers.send E now s p m).1.is_connected_to a = true) :
    s.is_connected_to a = true := by
  unfold Peers.is_connected_to at *
  rcases send_connected_cases E now s p m with hc | ⟨_, hc⟩
  · rw [hc] at h; exact h
  · rw [hc, lookupA_eraseA] at h
    by_cases hpa : p = a
    · rw [if_pos hpa] at h; cases h
    · rw [if_neg hpa] at h; exact h

/-- Preservation of a state predicate along the fold of `sendAccum`. -/
theorem foldl_sendAccum_pres (E : Env) (now : Nat) (msg : Message) (P : Peers → Prop)
    (hsend : ∀ s p, P s → P (Peers.send E now s p msg).1) :
    ∀ (l : List SockAddr) (acc : Peers × List Sent), P acc.1 →
      P ((l.foldl (Peers.sendAccum E now msg) acc).1) := by
  intro l
  induction l with
  | nil => intro acc h; exact h
  | cons x xs ih =>
    intro acc h
    exact ih (Peers.sendAccum E now msg acc x) (hsend acc.1 x h)

/-- Preservation of a state predicate through `Peers::propagate`. -/
theorem propagate_pres (E : Env) (now : Nat) (sender : SockAddr) (msg : Message)
    (P : Peers → Prop) (hsend : ∀ s' p, P s' → P (Peers.send E now s' p msg).1)
    (s : Peers) (h : P s) : P (Peers.propagate E now s sender msg).1 := by
  unfold Peers.propagate
  have aux : ∀ (l : List SockAddr) (acc : Peers × List Sent), P acc.1 →
      P ((l.foldl (fun acc peer =>
          if peer ≠ sender then Peers.sendAccum E now msg acc peer else acc) acc).1) := by
    intro l
    induction l with
    | nil => intro acc hacc; exact hacc
    | cons x xs ih =>
      intro acc hacc
      by_cases hx : x ≠ sender
      · simp only [List.foldl, if_pos hx]
        exact ih _ (hsend acc.1 x hacc)
      · simp only [List.foldl, if_neg hx]
        exact ih _ hacc
  exact aux s.connected_addrs (s, []) h

theorem add_candidate_one_connected (st : Peers) (p : SockAddr) :
    (Peers.add_candidate_one st p).connected_peers = st.connected_peers := by
  unfold Peers.add_candidate_one; split <;> rfl

theorem add_candidate_one_local_ip (st : Peers) (p : SockAddr) :
    (Peers.add_candidate_one st p).local_ip = st.local_ip := by
  unfold Peers.add_candidate_one; split <;> rfl

theorem add_candidate_one_restricted (st : Peers) (p : SockAddr) :
    (Peers.add_candidate_one st p).restricted_peers = st.restricted_peers := by
  unfold Peers.add_candidate_one; split <;> rfl

theorem add_candidate_peers_connected (E : Env) (s : Peers) (l : List SockAddr) :
    (Peers.add_candidate_peers E s l).connected_peers = s.connected_peers := by
  unfold Peers.add_candidate_peers
  split
  · have aux : ∀ (l' : List SockAddr) (st : Peers),
        (l'.foldl Peers.add_candidate_one st).connected_peers = st.connected_peers := by
      intro l'
      induction l' with
      | nil => intro st; rfl
      | cons x xs ih => intro st; rw [List.foldl, ih, add_candidate_one_connected]
    exact aux _ s
  · rfl

theorem add_candidate_peers_restricted (E : Env) (s : Peers) (l : List SockAddr) :
    (Peers.add_candidate_peers E s l).restricted_peers = s.restricted_peers := by
  unfold Peers.add_candidate_peers
  split
  · have aux : ∀ (l' : List SockAddr) (st : Peers),
        (l'.foldl Peers.add_candidate_one st).restricted_peers = st.restricted_peers := by
      intro l'
      induction l' with
      | nil => intro st; rfl
      | cons x xs ih => intro st; rw [List.foldl, ih, add_candidate_one_restricted]
    exact aux _ s
  · rfl

theorem connect_connected_unchanged (E : Env) (now : Nat) (s : Peers) (ip : SockAddr)
    (d : Bool) :
    (Peers.update E now s (.Connect ip d)).1.connected_peers = s.connected_peers := by
  simp only [Peers.update]
  split_ifs <;> rfl

theorem peer_connecting_connected_unchanged (E : Env) (now : Nat) (s : Peers)
    (ip : SockAddr) :
    (Peers.update E now s (.PeerConnecting ip)).1.connected_peers = s.connected_peers := by
  simp only [Peers.update]
  split_ifs <;> rfl

theorem heartbeatTrim_keeps_open (E : Env) (now : Nat) (s : Peers) (a : SockAddr) (n : Nat)
    (h : lookupA a s.connected_peers = some (n, true)) :
    lookupA a (Peers.heartbeatTrim E now s).1.connected_peers = some (n, true) := by
  unfold Peers.heartbeatTrim
  split
  · exact foldl_sendAccum_pres E now .Disconnect
      (fun s' => lookupA a s'.connected_peers = some (n, true))
      (fun s' p hp => send_keeps_open E now s' p .Disconnect a n hp) _ (s, []) h
  · exact h

theorem heartbeatGrow_keeps_open (E : Env) (now : Nat) (acc : Peers × List Sent)
    (a : SockAddr) (n : Nat)
    (h : lookupA a acc.1.connected_peers = some (n, true)) :
    lookupA a (Peers.heartbeatGrow E now acc).1.connected_peers = some (n, true) := by
  unfold Peers.heartbeatGrow
  dsimp only
  split
  · apply propagate_pres E now _ .PeerRequest
      (fun s' => lookupA a s'.connected_peers = some (n, true))
      (fun s' p hp => send_keeps_open E now s' p .PeerRequest a n hp)
    rw [add_candidate_peers_connected]
    split
    · rw [add_candidate_peers_connected]; exact h
    · exact h
  · exact h

/-! ## C10: the `PeerRestricted` frame condition -/

/-- C10 (counterexample) -- removal from `connected_peers` does not happen
only through `PeerDisconnected`: at the sample state whose only connected
peer `addrA` sits behind a closed outbound channel, processing
`MessageSend(addrA, PeerRequest)` — which is not a `PeerDisconnected`
request — removes `addrA` from `connected_peers` (the outbound channel
send fails). -/
theorem peer_restricted_removal_cex :
    samplePeersClosed.is_connected_to addrA = true ∧
    (Peers.update sampleEnv 3 samplePeersClosed
        (.MessageSend addrA .PeerRequest)).1.is_connected_to addrA = false := by
  decide

/-- C10 (amended) -- processing `PeerRestricted(addr)` inserts `addr` into
`restricted_peers` with the current instant and changes nothing else (the
full state equation below), emitting no message: in particular the
address, if present, stays in `connected_peers` with its entry intact,
`candidate_peers` is unchanged, and the gossip-dedup tables are
unchanged. Moreover a peer connected over an open (non-failed) outbound
channel is removed from `connected_peers` only by a `PeerDisconnected`
request for that address: every other request leaves it connected. (The
original claim's "removal occurs only via a later `PeerDisconnected`" is
amended to except removal by a failed outbound channel send, per the
counterexample.) -/
theorem peer_restricted_frame (E : Env) (now : Nat) (s : Peers) (a : SockAddr) :
    Peers.update E now s (.PeerRestricted a) =
      ({ s with restricted_peers := insertA a now s.restricted_peers }, []) ∧
    (∀ (req : PeersRequest) (t : Nat) (n : Nat),
      lookupA a s.connected_peers = some (n, true) →
      req ≠ .PeerDisconnected a →
      (Peers.update E t s req).1.is_connected_to a = true) := by
  constructor
  · rfl
  · intro req t n hconn hne
    have hsome : ∀ (l : List (SockAddr × Nat × Bool)), lookupA a l = some (n, true) →
        ((lookupA a l).isSome = true) := by intro l hl; rw [hl]; rfl
    cases req with
    | Connect ip d =>
      unfold Peers.is_connected_to
      rw [connect_connected_unchanged, hconn]; rfl
    | Heartbeat =>
      unfold Peers.is_connected_to
      have h1 := heartbeatTrim_keeps_open E t s a n hconn
      have h2 := heartbeatGrow_keeps_open E t (Peers.heartbeatTrim E t s) a n h1
      simp only [Peers.update]
      rw [h2]; rfl
    | MessagePropagate sender m =>
      unfold Peers.is_connected_to
      have := propagate_pres E t sender m
        (fun s' => lookupA a s'.connected_peers = some (n, true))
        (fun s' p hp => send_keeps_open E t s' p m a n hp) s hconn
      simp only [Peers.update]
      rw [this]; rfl
    | MessageSend p m =>
      unfold Peers.is_connected_to
      have := send_keeps_open E t s p m a n hconn
      simp only [Peers.update]
      rw [this]; rfl
    | PeerConnecting ip =>
      unfold Peers.is_connected_to
      rw [peer_connecting_connected_unchanged, hconn]; rfl
    | PeerConnected ip pn ob =>
      unfold Peers.is_connected_to
      simp only [Peers.update]
      rw [lookupA_insertA]
      by_cases hip : ip = a
      · rw [if_pos hip]; rfl
      · rw [if_neg hip, hconn]; rfl
    | PeerDisconnected ip =>
      unfold Peers.is_connected_to
      simp only [Peers.update]
      rw [lookupA_eraseA]
      have hip : ip ≠ a := fun hh => hne (by rw [hh])
      rw [if_neg hip, hconn]; rfl
    | PeerRestricted ip =>
      unfold Peers.is_connected_to
      simp only [Peers.update]
      rw [hconn]; rfl
    | SendPeerResponse r =>
      unfold Peers.is_connected_to
      have := send_keeps_open E t s r (.PeerResponse s.connected_addrs) a n hconn
      simp only [Peers.update]
      rw [this]; rfl
    | ReceivePeerResponse ips =>
      unfold Peers.is_connected_to
      simp only [Peers.update]
      rw [add_candidate_peers_connected, hconn]; rfl

/-- Witness for `peer_restricted_frame`: at the sample state with `addrA`
connected over an open channel, `addrA` is still connected after a
`MessageSend` of a `Ping`. -/
theorem peer_restricted_frame_witness :
    (Peers.update sampleEnv 3 samplePeersOpen
        (.MessageSend addrA (.Ping 12 0 0))).1.is_connected_to addrA = true :=
  (peer_restricted_frame sampleEnv 3 samplePeersOpen addrA).2
    (.MessageSend addrA (.Ping 12 0 0)) 3 41 (by decide) (by decide)

/-! ## C6: admission of candidate peers from `PeerResponse` -/

theorem foldl_add_candidate_mem (a : SockAddr) :
    ∀ (l : List SockAddr) (st : Peers),
      (a ∈ (l.foldl Peers.add_candidate_one st).candidate_peers ↔
        a ∈ st.candidate_peers ∨
          (a ∈ l ∧ is_self_addr st.local_ip a = false ∧ st.is_connected_to a = false)) := by
  intro l
  induction l with
  | nil => intro st; simp
  | cons x xs ih =>
    intro st
    rw [List.foldl, ih]
    have hli := add_candidate_one_local_ip st x
    have hconn : ∀ b, (Peers.add_candidate_one st x).is_connected_to b =
        st.is_connected_to b := by
      intro b
      unfold Peers.is_connected_to
      rw [add_candidate_one_connected]
    rw [hli, hconn]
    unfold Peers.add_candidate_one
    by_cases hc : (!is_self_addr st.local_ip x && !st.is_connected_to x
        && !(st.candidate_peers.contains x)) = true
    · rw [if_pos hc]
      simp only [Bool.and_eq_true, Bool.not_eq_true'] at hc
      obtain ⟨⟨hself, hcn⟩, hcont⟩ := hc
      have hxmem : x ∉ st.candidate_peers := by
        intro hx
        rw [show st.candidate_peers.contains x = true by
          simpa [List.contains, List.elem_iff] using hx] at hcont
        cases hcont
      simp only [List.mem_cons]
      constructor
      · rintro (((rfl : a = x) | hmem) | ⟨hxs, hsa, hca⟩)
        · exact Or.inr ⟨Or.inl rfl, hself, hcn⟩
        · exact Or.inl hmem
        · exact Or.inr ⟨Or.inr hxs, hsa, hca⟩
      · rintro (hmem | ⟨(rfl : a = x) | hxs, hsa, hca⟩)
        · exact Or.inl (Or.inr hmem)
        · exact Or.inl (Or.inl rfl)
        · exact Or.inr ⟨hxs, hsa, hca⟩
    · rw [if_neg hc]
      simp only [Bool.and_eq_true, Bool.not_eq_true', not_and_or, not_and] at hc
      simp only [List.mem_cons]
      constructor
      · rintro (hmem | ⟨hxs, hsa, hca⟩)
        · exact Or.inl hmem
        · exact Or.inr ⟨Or.inr hxs, hsa, hca⟩
      · rintro (hmem | ⟨rfl | hxs, hsa, hca⟩)
        · exact Or.inl hmem
        · -- `a` itself failed the insertion guard, so it was already a candidate
          rcases hc with h | h
          · rcases h with h' | h'
            · exact absurd hsa h'
            · exact absurd hca h'
          · have hcont : st.candidate_peers.contains a = true := by
              cases hcc : st.candidate_peers.contains a with
              | false => exact absurd hcc h
              | true => rfl
            exact Or.inl (by simpa [List.contains, List.elem_iff] using hcont)
        · exact Or.inr ⟨hxs, hsa, hca⟩

/-- C6 (counterexample) -- at the boundary where the current candidate
count plus the length of the received list is exactly
`MAXIMUM_CANDIDATE_PEERS` (so the combined size does not *exceed* the
threshold), the code rejects the entire list: with an empty candidate set,
a one-element list and `MAXIMUM_CANDIDATE_PEERS = 1`, the listed address
is valid (not self, not connected, not a candidate) yet is not added. -/
theorem receive_peer_response_boundary_cex :
    ¬ ((Peers.new addrLocal 99).candidate_peers.length + [addrA].length >
        ({ sampleEnv with MAXIMUM_CANDIDATE_PEERS := 1 } : Env).MAXIMUM_CANDIDATE_PEERS) ∧
    is_self_addr (Peers.new addrLocal 99).local_ip addrA = false ∧
    (Peers.new addrLocal 99).is_connected_to addrA = false ∧
    addrA ∉ (Peers.new addrLocal 99).candidate_peers ∧
    addrA ∉ (Peers.update { sampleEnv with MAXIMUM_CANDIDATE_PEERS := 1 } 0
        (Peers.new addrLocal 99) (.ReceivePeerResponse [addrA])).1.candidate_peers := by
  decide

/-- C6 (amended) -- processing `ReceivePeerResponse(peer_ips)` adds
nothing when the current candidate count plus the length of the list
*reaches or exceeds* `MAXIMUM_CANDIDATE_PEERS` (strictly-below check in
the code, not "would exceed"); otherwise an address is a candidate
afterwards iff it already was one, or it is listed and is not the local
address, not currently connected, and not already a candidate. -/
theorem receive_peer_response_membership (E : Env) (now : Nat) (s : Peers)
    (peer_ips : List SockAddr) (a : SockAddr) :
    a ∈ (Peers.update E now s (.ReceivePeerResponse peer_ips)).1.candidate_peers ↔
      a ∈ s.candidate_peers ∨
        (s.candidate_peers.length + peer_ips.length < E.MAXIMUM_CANDIDATE_PEERS ∧
         a ∈ peer_ips ∧ is_self_addr s.local_ip a = false ∧
         s.is_connected_to a = false) := by
  show a ∈ (Peers.add_candidate_peers E s peer_ips).candidate_peers ↔ _
  unfold Peers.add_candidate_peers
  by_cases hlen : s.candidate_peers.length + peer_ips.length < E.MAXIMUM_CANDIDATE_PEERS
  · rw [if_pos hlen]
    have htake : peer_ips.take E.MAXIMUM_CANDIDATE_PEERS = peer_ips :=
      List.take_of_length_le (by omega)
    rw [htake, foldl_add_candidate_mem]
    constructor
    · rintro (hmem | ⟨hin, hsa, hca⟩)
      · exact Or.inl hmem
      · exact Or.inr ⟨hlen, hin, hsa, hca⟩
    · rintro (hmem | ⟨_, hin, hsa, hca⟩)
      · exact Or.inl hmem
      · exact Or.inr ⟨hin, hsa, hca⟩
  · rw [if_neg hlen]
    constructor
    · intro hmem; exact Or.inl hmem
    · rintro (hmem | ⟨hl, _⟩)
      · exact hmem
      · exact absurd hl hlen

/-! ## C3: connected and candidate peers stay disjoint -/

theorem removeS_subset (a b : SockAddr) (l : List SockAddr)
    (h : a ∈ removeS b l) : a ∈ l := by
  unfold removeS at h
  exact (List.mem_filter.mp h).1

theorem not_mem_removeS_self (b : SockAddr) (l : List SockAddr) : b ∉ removeS b l := by
  intro h
  unfold removeS at h
  have := (List.mem_filter.mp h).2
  simp at this

theorem mem_insertS (a b : SockAddr) (l : List SockAddr)
    (h : a ∈ insertS b l) : a = b ∨ a ∈ l := by
  unfold insertS at h
  by_cases hb : b ∈ l
  · rw [if_pos hb] at h; exact Or.inr h
  · rw [if_neg hb] at h
    rcases List.mem_cons.mp h with h | h
    · exact Or.inl h
    · exact Or.inr h

theorem send_disjoint (E : Env) (now : Nat) (s : Peers) (p : SockAddr) (m : Message)
    (h : Peers.disjointCC s) : Peers.disjointCC (Peers.send E now s p m).1 := by
  intro a hconn
  rw [send_candidate]
  exact h a (send_connected_subset E now s p m a hconn)

theorem add_candidate_one_disjoint (st : Peers) (x : SockAddr)
    (h : Peers.disjointCC st) : Peers.disjointCC (Peers.add_candidate_one st x) := by
  intro a hconn
  have hconn' : st.is_connected_to a = true := by
    unfold Peers.is_connected_to at hconn ⊢
    rw [add_candidate_one_connected] at hconn
    exact hconn
  unfold Peers.add_candidate_one
  by_cases hc : (!is_self_addr st.local_ip x && !st.is_connected_to x
      && !(st.candidate_peers.contains x)) = true
  · rw [if_pos hc]
    simp only [Bool.and_eq_true, Bool.not_eq_true'] at hc
    obtain ⟨⟨_, hcn⟩, _⟩ := hc
    intro hmem
    rcases List.mem_cons.mp hmem with rfl | hmem
    · rw [hconn'] at hcn; cases hcn
    · exact h a hconn' hmem
  · rw [if_neg hc]
    exact h a hconn'

theorem add_candidate_peers_disjoint (E : Env) (s : Peers) (l : List SockAddr)
    (h : Peers.disjointCC s) : Peers.disjointCC (Peers.add_candidate_peers E s l) := by
  unfold Peers.add_candidate_peers
  split
  · have aux : ∀ (l' : List SockAddr) (st : Peers), Peers.disjointCC st →
        Peers.disjointCC (l'.foldl Peers.add_candidate_one st) := by
      intro l'
      induction l' with
      | nil => intro st hst; exact hst
      | cons x xs ih => intro st hst; exact ih _ (add_candidate_one_disjoint st x hst)
    exact aux _ s h
  · exact h

theorem update_disjoint (E : Env) (now : Nat) (s : Peers) (req : PeersRequest)
    (h : Peers.disjointCC s) : Peers.disjointCC (Peers.update E now s req).1 := by
  cases req with
  | Connect ip d =>
    intro a hconn
    unfold Peers.is_connected_to at hconn
    rw [connect_connected_unchanged] at hconn
    have hcand : (Peers.update E now s (.Connect ip d)).1.candidate_peers = s.candidate_peers ∨
        (Peers.update E now s (.Connect ip d)).1.candidate_peers =
          removeS ip s.candidate_peers := by
      simp only [Peers.update]
      split_ifs <;> first | exact Or.inl rfl | exact Or.inr rfl
    rcases hcand with hc | hc <;> rw [hc]
    · exact h a hconn
    · intro hmem
      exact h a hconn (removeS_subset a ip _ hmem)
  | Heartbeat =>
    simp only [Peers.update]
    have h1 : Peers.disjointCC (Peers.heartbeatTrim E now s).1 := by
      unfold Peers.heartbeatTrim
      split
      · exact foldl_sendAccum_pres E now .Disconnect Peers.disjointCC
          (fun s' p hp => send_disjoint E now s' p .Disconnect hp) _ (s, []) h
      · exact h
    unfold Peers.heartbeatGrow
    dsimp only
    split
    · apply propagate_pres E now _ .PeerRequest Peers.disjointCC
        (fun s' p hp => send_disjoint E now s' p .PeerRequest hp)
      apply add_candidate_peers_disjoint
      split
      · exact add_candidate_peers_disjoint E _ _ h1
      · exact h1
    · exact h1
  | MessagePropagate sender m =>
    exact propagate_pres E now sender m Peers.disjointCC
      (fun s' p hp => send_disjoint E now s' p m hp) s h
  | MessageSend p m => exact send_disjoint E now s p m h
  | PeerConnecting ip =>
    intro a hconn
    unfold Peers.is_connected_to at hconn
    rw [peer_connecting_connected_unchanged] at hconn
    have hcand : (Peers.update E now s (.PeerConnecting ip)).1.candidate_peers =
        s.candidate_peers := by
      simp only [Peers.update]
      split_ifs <;> rfl
    rw [hcand]
    exact h a hconn
  | PeerConnected ip pn ob =>
    intro a hconn
    simp only [Peers.update] at hconn ⊢
    unfold Peers.is_connected_to at hconn
    rw [lookupA_insertA] at hconn
    by_cases hip : ip = a
    · subst hip
      exact not_mem_removeS_self ip s.candidate_peers
    · rw [if_neg hip] at hconn
      intro hmem
      exact h a hconn (removeS_subset a ip _ hmem)
  | PeerDisconnected ip =>
    intro a hconn
    simp only [Peers.update] at hconn ⊢
    unfold Peers.is_connected_to at hconn
    rw [lookupA_eraseA] at hconn
    by_cases hip : ip = a
    · rw [if_pos hip] at hconn; cases hconn
    · rw [if_neg hip] at hconn
      intro hmem
      rcases mem_insertS a ip _ hmem with rfl | hmem
      · exact hip rfl
      · exact h a hconn hmem
  | PeerRestricted ip =>
    intro a hconn
    simp only [Peers.update] at hconn ⊢
    exact h a hconn
  | SendPeerResponse r =>
    exact send_disjoint E now s r (.PeerResponse s.connected_addrs) h
  | ReceivePeerResponse ips => exact add_candidate_peers_disjoint E s ips h

/-- C3 -- starting from a freshly initialized `Peers` state, after any
sequence of `PeersRequest` operations the connected set and the candidate
set are disjoint: a connected address is never a candidate. (Every prefix
of a trace is itself a trace, so this holds after each operation.) -/
theorem connected_candidate_disjoint (E : Env) (ip : SockAddr) (nonce : Nat)
    (trace : List (Nat × PeersRequest)) (a : SockAddr)
    (hconn : (Peers.run E (Peers.new ip nonce) trace).is_connected_to a = true) :
    a ∉ (Peers.run E (Peers.new ip nonce) trace).candidate_peers := by
  have hrun : ∀ (tr : List (Nat × PeersRequest)) (s : Peers), Peers.disjointCC s →
      Peers.disjointCC (Peers.run E s tr) := by
    intro tr
    induction tr with
    | nil => intro s hs; exact hs
    | cons e rest ih =>
      intro s hs
      exact ih _ (update_disjoint E e.1 s e.2 hs)
  have hnew : Peers.disjointCC (Peers.new ip nonce) := by
    intro b hb hm
    cases hm
  exact hrun trace (Peers.new ip nonce) hnew a hconn

/-- Witness for `connected_candidate_disjoint`: after connecting `addrA`,
it is not a candidate. -/
theorem connected_candidate_disjoint_witness :
    addrA ∉ (Peers.run sampleEnv (Peers.new addrLocal 99)
        [(0, .PeerConnected addrA 41 true)]).candidate_peers :=
  connected_candidate_disjoint sampleEnv addrLocal 99
    [(0, .PeerConnected addrA 41 true)] addrA (by decide)

/-! ## C4: inbound `UnconfirmedBlock` handling and block-spam restriction -/

/-- C4 -- while the connection is live (the silence check passes), an
inbound `UnconfirmedBlock`: (i) when at least 5 distinct items are already
recorded as seen from this peer within the last 5 seconds — i.e. the
current message makes more than 5 seen — signals `PeerRestricted` for the
peer and breaks the loop; (ii) otherwise updates the last-seen entry for
the block hash in every case and forwards the block to the ledger iff the
time since this hash was last seen exceeds `RADIO_SILENCE_IN_SECS`;
(iii) concretely, a peer sending 6 distinct `UnconfirmedBlock` messages
within 5 seconds has its loop broken with `PeerRestricted` signalled and
`Disconnect` routed to the ledger, and processing that `PeerRestricted`
request records the address in `restricted_peers` with the current
instant. -/
theorem unconfirmed_block_handling (E : Env) (now : Nat) (p : PeerState) (b : Block)
    (hlive : now - p.last_seen ≤ E.RADIO_SILENCE_IN_SECS) :
    (5 ≤ ((p.seen_inbound_blocks.filter (fun e => decide (now - e.2 ≤ 5))).length) →
      Peer.handlerStep E now p (.socket (.frame (.UnconfirmedBlock b))) =
        ({ p with last_seen := now },
         [.toPeers (.PeerRestricted p.listener_ip)], false)) ∧
    (((p.seen_inbound_blocks.filter (fun e => decide (now - e.2 ≤ 5))).length < 5) →
      Peer.handlerStep E now p (.socket (.frame (.UnconfirmedBlock b))) =
        ({ p with
            last_seen := now
            seen_inbound_blocks := insertA b.hash now p.seen_inbound_blocks },
         if E.RADIO_SILENCE_IN_SECS < now - (lookupA b.hash p.seen_inbound_blocks).getD 0
         then [.toLedger (.UnconfirmedBlock p.listener_ip b)] else [],
         true)) ∧
    ((Peer.handlerRun sampleEnv samplePeerState sampleSpam).2.2 = true ∧
     PeerAction.toPeers (.PeerRestricted addrA) ∈
       (Peer.handlerRun sampleEnv samplePeerState sampleSpam).2.1 ∧
     PeerAction.toLedger (.Disconnect addrA) ∈
       (Peer.handlerRun sampleEnv samplePeerState sampleSpam).2.1 ∧
     lookupA addrA (Peers.update sampleEnv 1005 (Peers.new addrLocal 99)
         (.PeerRestricted addrA)).1.restricted_peers = some 1005) := by
  refine ⟨?_, ?_, by decide⟩
  · intro hfreq
    simp only [Peer.handlerStep]
    rw [if_neg (by omega)]
    simp only [Peer.dispatchMessage]
    rw [if_pos hfreq]
  · intro hfreq
    simp only [Peer.handlerStep]
    rw [if_neg (by omega)]
    simp only [Peer.dispatchMessage]
    rw [if_neg (by omega)]
    by_cases hready : E.RADIO_SILENCE_IN_SECS <
        now - (lookupA b.hash p.seen_inbound_blocks).getD 0
    · simp [hready]
    · simp [hready]

/-- Witness for `unconfirmed_block_handling`: a first block from the
sample peer is processed on the dedup path (no restriction). -/
theorem unconfirmed_block_handling_witness :
    Peer.handlerStep sampleEnv 1001 samplePeerState
        (.socket (.frame (.UnconfirmedBlock (sampleBlock 1)))) =
      ({ samplePeerState with
          last_seen := 1001
          seen_inbound_blocks :=
            insertA (sampleBlock 1).hash 1001 samplePeerState.seen_inbound_blocks },
       if sampleEnv.RADIO_SILENCE_IN_SECS <
           1001 - (lookupA (sampleBlock 1).hash samplePeerState.seen_inbound_blocks).getD 0
       then [.toLedger (.UnconfirmedBlock samplePeerState.listener_ip (sampleBlock 1))]
       else [],
       true) :=
  (unconfirmed_block_handling sampleEnv 1001 samplePeerState (sampleBlock 1)
      (by decide)).2.1 (by decide)

/-! ## C9: excess-peer selection during `Heartbeat` -/

theorem dedupStep_ready (E : Env) (now : Nat) (s : Peers) (p : SockAddr) (m : Message) :
    (Peers.dedupStep E now s p m).2 = Peers.is_ready_to_send E now s p m := by
  cases m <;> rfl

/-- `Peers::send` delivers nothing, or exactly the given message to the
given peer (timestamped `now`), the latter only if the peer is connected
over an open channel and the dedup check passed. -/
theorem send_out_characterization (E : Env) (now : Nat) (s : Peers) (p : SockAddr)
    (m : Message) :
    (Peers.send E now s p m).2 = [] ∨
    ((Peers.send E now s p m).2 = [⟨p, m, now⟩] ∧
     (∃ n, lookupA p s.connected_peers = some (n, true)) ∧
     Peers.is_ready_to_send E now s p m = true) := by
  unfold Peers.send
  cases h : lookupA p s.connected_peers with
  | none => exact Or.inl rfl
  | some v =>
    obtain ⟨n, ch⟩ := v
    simp only []
    split
    · cases ch with
      | true =>
        rename_i hstep
        rw [if_pos rfl]
        exact Or.inr ⟨rfl, ⟨n, rfl⟩, by rw [← dedupStep_ready]; exact hstep⟩
      | false =>
        rw [if_neg (by decide : ¬(false = true))]
        exact Or.inl rfl
    · exact Or.inl rfl

theorem foldl_sendAccum_out (E : Env) (now : Nat) (msg : Message) :
    ∀ (l : List SockAddr) (acc : Peers × List Sent),
      ((l.foldl (Peers.sendAccum E now msg) acc).2.length ≤ acc.2.length + l.length) ∧
      (∀ x ∈ (l.foldl (Peers.sendAccum E now msg) acc).2,
        x ∈ acc.2 ∨ (x.message = msg ∧ x.peer ∈ l ∧ x.time = now)) := by
  intro l
  induction l with
  | nil => intro acc; exact ⟨Nat.le_add_right _ _, fun x hx => Or.inl hx⟩
  | cons y ys ih =>
    intro acc
    rw [List.foldl]
    have hbody : (Peers.sendAccum E now msg acc y).2.length ≤ acc.2.length + 1 ∧
        ∀ x ∈ (Peers.sendAccum E now msg acc y).2,
          x ∈ acc.2 ∨ (x.message = msg ∧ x.peer = y ∧ x.time = now) := by
      unfold Peers.sendAccum
      dsimp only
      rcases send_out_characterization E now acc.1 y msg with hout | ⟨hout, _⟩ <;>
        rw [hout]
      · constructor
        · simp
        · intro x hx
          exact Or.inl (by simpa using hx)
      · constructor
        · simp
        · intro x hx
          rcases List.mem_append.mp hx with hx | hx
          · exact Or.inl hx
          · rcases List.mem_singleton.mp hx with rfl
            exact Or.inr ⟨rfl, rfl, rfl⟩
    obtain ⟨ihlen, ihmem⟩ := ih (Peers.sendAccum E now msg acc y)
    obtain ⟨hblen, hbmem⟩ := hbody
    refine ⟨by rw [List.length_cons]; omega, ?_⟩
    intro x hx
    rcases ihmem x hx with hx' | ⟨hm, hp, ht⟩
    · rcases hbmem x hx' with hx'' | ⟨hm, hp, ht⟩
      · exact Or.inl hx''
      · exact Or.inr ⟨hm, by rw [hp]; exact List.mem_cons_self y ys, ht⟩
    · exact Or.inr ⟨hm, List.mem_cons_of_mem y hp, ht⟩

theorem propagate_out (E : Env) (now : Nat) (s : Peers) (sender : SockAddr) (msg : Message) :
    ∀ x ∈ (Peers.propagate E now s sender msg).2, x.message = msg ∧ x.time = now := by
  unfold Peers.propagate
  have aux : ∀ (l : List SockAddr) (acc : Peers × List Sent),
      (∀ x ∈ acc.2, x.message = msg ∧ x.time = now) →
      ∀ x ∈ (l.foldl (fun acc peer =>
          if peer ≠ sender then Peers.sendAccum E now msg acc peer else acc) acc).2,
        x.message = msg ∧ x.time = now := by
    intro l
    induction l with
    | nil => intro acc hacc; exact hacc
    | cons y ys ih =>
      intro acc hacc
      rw [List.foldl]
      by_cases hy : y ≠ sender
      · rw [if_pos hy]
        apply ih
        unfold Peers.sendAccum
        dsimp only
        rcases send_out_characterization E now acc.1 y msg with hout | ⟨hout, _⟩ <;>
          rw [hout]
        · intro x hx; exact hacc x (by simpa using hx)
        · intro x hx
          rcases List.mem_append.mp hx with hx | hx
          · exact hacc x hx
          · rcases List.mem_singleton.mp hx with rfl
            exact ⟨rfl, rfl⟩
      · rw [if_neg hy]
        exact ih acc hacc
  exact aux s.connected_addrs (s, []) (by intro x hx; cases hx)

theorem heartbeatTrim_out (E : Env) (now : Nat) (s : Peers) :
    (Peers.heartbeatTrim E now s).2.length ≤
      s.num_connected_peers - E.MAXIMUM_NUMBER_OF_PEERS ∧
    ∀ x ∈ (Peers.heartbeatTrim E now s).2,
      x.message = Message.Disconnect ∧ x.peer ∉ E.SYNC_NODES ∧ x.peer ∉ E.PEER_NODES := by
  unfold Peers.heartbeatTrim
  split
  · dsimp only
    obtain ⟨hlen, hmem⟩ := foldl_sendAccum_out E now .Disconnect
      (((s.connected_peers.filter
          (fun p => decide (p.1 ∉ E.SYNC_NODES ∧ p.1 ∉ E.PEER_NODES))).take
        (s.num_connected_peers - E.MAXIMUM_NUMBER_OF_PEERS)).map Prod.fst) (s, [])
    constructor
    · refine le_trans hlen ?_
      simp only [List.length_nil, Nat.zero_add, List.length_map, List.length_take]
      exact le_trans (Nat.min_le_left _ _) (le_refl _)
    · intro x hx
      rcases hmem x hx with hx' | ⟨hm, hp, _⟩
      · cases hx'
      · refine ⟨hm, ?_⟩
        rcases List.mem_map.mp hp with ⟨pair, hpair, hfst⟩
        have hpair' := List.mem_of_mem_take hpair
        have := (List.mem_filter.mp hpair').2
        have hdec := of_decide_eq_true this
        rw [← hfst]
        exact hdec
  · exact ⟨Nat.zero_le _, fun x hx => absurd hx (List.not_mem_nil x)⟩

theorem heartbeatGrow_out (E : Env) (now : Nat) (acc : Peers × List Sent) :
    (Peers.heartbeatGrow E now acc).2 = acc.2 ∨
    ∃ extra, (Peers.heartbeatGrow E now acc).2 = acc.2 ++ extra ∧
      ∀ x ∈ extra, x.message = Message.PeerRequest ∧ x.time = now := by
  unfold Peers.heartbeatGrow
  dsimp only
  split
  · refine Or.inr ⟨_, rfl, ?_⟩
    intro x hx
    exact propagate_out E now _ _ .PeerRequest x hx
  · exact Or.inl rfl

theorem foldl_sendAccum_connected_subset (E : Env) (now : Nat) (msg : Message) :
    ∀ (l : List SockAddr) (acc : Peers × List Sent) (a : SockAddr),
      ((l.foldl (Peers.sendAccum E now msg) acc).1.is_connected_to a = true) →
      acc.1.is_connected_to a = true := by
  intro l
  induction l with
  | nil => intro acc a h; exact h
  | cons y ys ih =>
    intro acc a h
    have := ih (Peers.sendAccum E now msg acc y) a h
    exact send_connected_subset E now acc.1 y msg a this

theorem propagate_connected_subset (E : Env) (now : Nat) (s : Peers) (sender : SockAddr)
    (msg : Message) (a : SockAddr)
    (h : (Peers.propagate E now s sender msg).1.is_connected_to a = true) :
    s.is_connected_to a = true := by
  unfold Peers.propagate at h
  have aux : ∀ (l : List SockAddr) (acc : Peers × List Sent),
      ((l.foldl (fun acc peer =>
          if peer ≠ sender then Peers.sendAccum E now msg acc peer else acc) acc).1.is_connected_to
        a = true) → acc.1.is_connected_to a = true := by
    intro l
    induction l with
    | nil => intro acc h'; exact h'
    | cons y ys ih =>
      intro acc h'
      rw [List.foldl] at h'
      by_cases hy : y ≠ sender
      · rw [if_pos hy] at h'
        have hmid := ih (Peers.sendAccum E now msg acc y) h'
        exact send_connected_subset E now acc.1 y msg a hmid
      · rw [if_neg hy] at h'
        exact ih _ h'
  exact aux s.connected_addrs (s, []) h

/-- C9 (counterexample) -- with `MAXIMUM_NUMBER_OF_PEERS = 1`, empty
allowlists and two connected peers over open channels, the number of
connected peers right after `Heartbeat` finishes is still 2: the excess
peer only receives a `Disconnect` message; it is not removed by the
heartbeat itself, refuting "after Heartbeat, |connected| ≤ MAX_PEERS
unless every over-budget connection is allowlisted". -/
theorem heartbeat_over_budget_cex :
    ({ sampleEnv with MAXIMUM_NUMBER_OF_PEERS := 1 } : Env).MAXIMUM_NUMBER_OF_PEERS = 1 ∧
    ({ sampleEnv with MAXIMUM_NUMBER_OF_PEERS := 1 } : Env).SYNC_NODES = [] ∧
    ({ sampleEnv with MAXIMUM_NUMBER_OF_PEERS := 1 } : Env).PEER_NODES = [] ∧
    (Peers.update { sampleEnv with MAXIMUM_NUMBER_OF_PEERS := 1 } 5 samplePeersTwo
        .Heartbeat).1.num_connected_peers = 2 := by
  decide

/-- C9 (amended) -- during `Heartbeat`, at most
`num_connected − MAXIMUM_NUMBER_OF_PEERS` peers are sent a `Disconnect`,
none of them in the sync-node or peer-node allowlists (the selection
excludes allowlisted addresses), and the connected set only shrinks
during the heartbeat (a peer is dropped immediately only when its
outbound channel send fails); the number of connected peers is not
otherwise forced below `MAXIMUM_NUMBER_OF_PEERS` by the heartbeat
itself. -/
theorem heartbeat_disconnect_selection (E : Env) (now : Nat) (s : Peers) :
    ((Peers.update E now s .Heartbeat).2.filter
        (fun x => x.message == Message.Disconnect)).length ≤
      s.num_connected_peers - E.MAXIMUM_NUMBER_OF_PEERS ∧
    (∀ x ∈ (Peers.update E now s .Heartbeat).2, x.message = Message.Disconnect →
      x.peer ∉ E.SYNC_NODES ∧ x.peer ∉ E.PEER_NODES) ∧
    (∀ a, (Peers.update E now s .Heartbeat).1.is_connected_to a = true →
      s.is_connected_to a = true) := by
  have htrim := heartbeatTrim_out E now s
  have hsub : ∀ a, (Peers.heartbeatTrim E now s).1.is_connected_to a = true →
      s.is_connected_to a = true := by
    intro a h
    unfold Peers.heartbeatTrim at h
    revert h
    split
    · dsimp only
      intro h
      exact foldl_sendAccum_connected_subset E now .Disconnect _ (s, []) a h
    · intro h; exact h
  refine ⟨?_, ?_, ?_⟩
  · simp only [Peers.update]
    rcases heartbeatGrow_out E now (Peers.heartbeatTrim E now s) with hg | ⟨extra, hg, hex⟩ <;>
      rw [hg]
    · exact le_trans (List.length_filter_le _ _) htrim.1
    · rw [List.filter_append]
      have hextra : extra.filter (fun x => x.message == Message.Disconnect) = [] := by
        rw [List.filter_eq_nil_iff]
        intro x hx
        rw [(hex x hx).1]
        decide
      rw [hextra, List.append_nil]
      exact le_trans (List.length_filter_le _ _) htrim.1
  · simp only [Peers.update]
    rcases heartbeatGrow_out E now (Peers.heartbeatTrim E now s) with hg | ⟨extra, hg, hex⟩ <;>
      rw [hg]
    · intro x hx _
      exact (htrim.2 x hx).2
    · intro x hx hm
      rcases List.mem_append.mp hx with hx | hx
      · exact (htrim.2 x hx).2
      · rw [(hex x hx).1] at hm
        cases hm
  · intro a h
    simp only [Peers.update] at h
    apply hsub
    revert h
    unfold Peers.heartbeatGrow
    dsimp only
    split
    · intro h
      have := propagate_connected_subset E now _ _ .PeerRequest a h
      unfold Peers.is_connected_to at this ⊢
      rw [add_candidate_peers_connected] at this
      revert this
      split
      · intro this; rw [add_candidate_peers_connected] at this; exact this
      · intro this; exact this
    · intro h; exact h

/-- Witness for `heartbeat_disconnect_selection`: at the over-budget
sample state, `addrB` is still connected after the heartbeat. -/
theorem heartbeat_disconnect_selection_witness :
    samplePeersTwo.is_connected_to addrB = true :=
  (heartbeat_disconnect_selection { sampleEnv with MAXIMUM_NUMBER_OF_PEERS := 1 } 5
      samplePeersTwo).2.2 addrB (by decide)

/-! ## C8: append/revert round trip of the ledger -/

theorem add_next_block_eq (g : Block) (c : Chain) (b : Block) (c' : Chain)
    (h : add_next_block g c b = some c') : c' = c ++ [b] ∧ b.height = latest_height g c + 1 := by
  unfold add_next_block at h
  split at h
  · rename_i hcond
    cases h
    exact ⟨rfl, hcond.1⟩
  · cases h

theorem foldlM_add_eq (g : Block) :
    ∀ (bs : List Block) (c0 c : Chain),
      List.foldlM (add_next_block g) c0 bs = some c → c = c0 ++ bs := by
  intro bs
  induction bs with
  | nil =>
    intro c0 c h
    simp only [List.foldlM_nil, pure] at h
    cases h
    simp
  | cons b bs ih =>
    intro c0 c h
    rw [List.foldlM_cons] at h
    cases h1 : add_next_block g c0 b with
    | none => rw [h1] at h; cases h
    | some c1 =>
      rw [h1] at h
      simp only [Option.bind_eq_bind, Option.some_bind] at h
      have := ih c1 c h
      rw [this, (add_next_block_eq g c0 b c1 h1).1, List.append_assoc]
      rfl

theorem foldlM_add_take (g : Block) :
    ∀ (bs : List Block) (c0 c : Chain),
      List.foldlM (add_next_block g) c0 bs = some c →
      ∀ k, List.foldlM (add_next_block g) c0 (bs.take k) = some (c0 ++ bs.take k) := by
  intro bs
  induction bs with
  | nil =>
    intro c0 c h k
    simp [List.foldlM_nil]
  | cons b bs ih =>
    intro c0 c h k
    rw [List.foldlM_cons] at h
    cases h1 : add_next_block g c0 b with
    | none => rw [h1] at h; cases h
    | some c1 =>
      rw [h1] at h
      simp only [Option.bind_eq_bind, Option.some_bind] at h
      cases k with
      | zero => simp [List.foldlM_nil]
      | succ k =>
        rw [List.take_succ_cons, List.foldlM_cons, h1]
        simp only [Option.bind_eq_bind, Option.some_bind]
        rw [ih c1 c h k, (add_next_block_eq g c0 b c1 h1).1, List.append_assoc]
        rfl

theorem heightsFrom_get :
    ∀ (c : Chain) (n : Nat), heightsFrom n c →
      ∀ i (hi : i < c.length), (c.get ⟨i, hi⟩).height = n + i := by
  intro c
  induction c with
  | nil => intro n _ i hi; cases hi
  | cons b rest ih =>
    intro n h i hi
    cases i with
    | zero => simpa using h.1
    | succ i =>
      have := ih (n + 1) h.2 i (by simpa using Nat.lt_of_succ_lt_succ hi)
      simp only [List.get_cons_succ]
      rw [this]
      omega

theorem heightsFrom_take :
    ∀ (c : Chain) (n k : Nat), heightsFrom n c → heightsFrom n (c.take k) := by
  intro c
  induction c with
  | nil => intro n k _; rw [List.take_nil]; trivial
  | cons b rest ih =>
    intro n k h
    cases k with
    | zero => trivial
    | succ k => exact ⟨h.1, ih (n + 1) k h.2⟩

theorem heightsFrom_drop :
    ∀ (c : Chain) (n k : Nat), heightsFrom n c → heightsFrom (n + k) (c.drop k) := by
  intro c
  induction c with
  | nil => intro n k _; rw [List.drop_nil]; trivial
  | cons b rest ih =>
    intro n k h
    cases k with
    | zero => exact h
    | succ k =>
      rw [List.drop_succ_cons]
      have heq : n + (k + 1) = (n + 1) + k := by omega
      rw [heq]
      exact ih (n + 1) k h.2

theorem heightsFrom_append_single :
    ∀ (c : Chain) (n : Nat) (b : Block), heightsFrom n c → b.height = n + c.length →
      heightsFrom n (c ++ [b]) := by
  intro c
  induction c with
  | nil => intro n b _ hb; exact ⟨by simpa using hb, trivial⟩
  | cons x rest ih =>
    intro n b h hb
    exact ⟨h.1, ih (n + 1) b h.2 (by rw [hb, List.length_cons]; omega)⟩

theorem heightsFrom_latest :
    ∀ (c : Chain) (g : Block) (n : Nat), heightsFrom n c → c ≠ [] →
      (latest_block g c).height = n + c.length - 1 := by
  intro c
  induction c with
  | nil => intro g n _ hne; cases hne rfl
  | cons b rest ih =>
    intro g n h _
    show (latest_block b rest).height = n + (b :: rest).length - 1
    cases hr : rest with
    | nil =>
      subst hr
      simpa [latest_block] using h.1
    | cons y ys =>
      have h2 := h.2
      rw [hr] at ih h2
      rw [ih b (n + 1) h2 (by intro hc; cases hc)]
      simp only [List.length_cons]
      omega

theorem foldlM_add_heightsFrom (g : Block) :
    ∀ (bs : List Block) (c0 c : Chain),
      List.foldlM (add_next_block g) c0 bs = some c →
      c0 ≠ [] → heightsFrom 0 c0 → heightsFrom 0 c ∧ c ≠ [] := by
  intro bs
  induction bs with
  | nil =>
    intro c0 c h hne h0
    simp only [List.foldlM_nil, pure] at h
    cases h
    exact ⟨h0, hne⟩
  | cons b bs ih =>
    intro c0 c h hne h0
    rw [List.foldlM_cons] at h
    cases h1 : add_next_block g c0 b with
    | none => rw [h1] at h; cases h
    | some c1 =>
      rw [h1] at h
      simp only [Option.bind_eq_bind, Option.some_bind] at h
      obtain ⟨hc1, hheight⟩ := add_next_block_eq g c0 b c1 h1
      have hlatest : (latest_block g c0).height = 0 + c0.length - 1 :=
        heightsFrom_latest c0 g 0 h0 hne
      have hb : b.height = 0 + c0.length := by
        unfold latest_height at hheight
        rw [hlatest] at hheight
        have : c0.length ≥ 1 := by
          cases c0 with
          | nil => exact absurd rfl hne
          | cons _ _ => simp [Nat.succ_le_succ]
        omega
      have h0' : heightsFrom 0 c1 := by
        rw [hc1]
        exact heightsFrom_append_single c0 0 b h0 hb
      have hne' : c1 ≠ [] := by
        rw [hc1]
        intro hc
        cases List.append_eq_nil.mp hc with
        | intro _ h2 => cases h2
      exact ih c1 c h hne' h0'

/-- C8 -- for every ledger chain built from genesis by successful
`add_next_block` calls, `revert_to_block_height h` (for `h ≤ latest
height) succeeds, keeps exactly the blocks of heights `[0, h]` and
returns exactly the removed blocks — the appended suffix `bs.drop h` —
in ascending height order `h+1, …, old tip`; the remaining state is the
chain obtained by appending only the first `h+1` blocks (genesis plus
`bs.take h`), whose tip height is `h`. All ledger observables
(`latest_height`, `latest_hash`, `ledgerRoot`, `latest_block_locators`)
are functions of the chain, so they coincide with those of the
append-only ledger. -/
theorem ledger_append_revert_roundtrip (g : Block) (bs c : List Block) (h : Nat)
    (hg : g.height = 0)
    (hbuild : buildChain g bs = some c)
    (hh : h ≤ latest_height g c) :
    revert_to_block_height g c h = some (c.take (h + 1), c.drop (h + 1)) ∧
    buildChain g (bs.take h) = some (c.take (h + 1)) ∧
    c.drop (h + 1) = bs.drop h ∧
    (∀ i (hi : i < (c.drop (h + 1)).length),
      ((c.drop (h + 1)).get ⟨i, hi⟩).height = h + 1 + i) ∧
    (c.drop (h + 1)).length = latest_height g c - h ∧
    latest_height g (c.take (h + 1)) = h := by
  have hc : c = g :: bs := by
    have := foldlM_add_eq g bs [g] c hbuild
    simpa using this
  have hHF : heightsFrom 0 c ∧ c ≠ [] := by
    apply foldlM_add_heightsFrom g bs [g] c hbuild
    · intro hx; cases hx
    · exact ⟨hg, trivial⟩
  have hlatest : latest_height g c = c.length - 1 := by
    unfold latest_height
    rw [heightsFrom_latest c g 0 hHF.1 hHF.2]
    omega
  have hclen : c.length = bs.length + 1 := by rw [hc]; simp
  have hh1 : h + 1 ≤ c.length := by omega
  refine ⟨?_, ?_, ?_, ?_, ?_, ?_⟩
  · unfold revert_to_block_height
    rw [if_pos hh]
  · have := foldlM_add_take g bs [g] c hbuild h
    unfold buildChain
    rw [this, hc, List.take_succ_cons]
    rfl
  · rw [hc, List.drop_succ_cons]
  · intro i hi
    have hdrop : heightsFrom (0 + (h + 1)) (c.drop (h + 1)) :=
      heightsFrom_drop c 0 (h + 1) hHF.1
    rw [Nat.zero_add] at hdrop
    rw [heightsFrom_get (c.drop (h + 1)) (h + 1) hdrop i hi]
  · rw [List.length_drop]
    omega
  · have htk : (c.take (h + 1)).length = h + 1 := by
      rw [List.length_take]
      omega
    have hne : c.take (h + 1) ≠ [] := by
      intro hx
      rw [hx] at htk
      cases htk
    unfold latest_height
    rw [heightsFrom_latest (c.take (h + 1)) g 0 (heightsFrom_take c 0 (h + 1) hHF.1) hne, htk]
    omega

/-- Witness for `ledger_append_revert_roundtrip`: a three-block chain
reverted to height 1 splits into its first two blocks and the removed
tip. -/
theorem ledger_append_revert_roundtrip_witness :
    revert_to_block_height (⟨0, 100, 0, true⟩ : Block)
        [⟨0, 100, 0, true⟩, ⟨1, 101, 100, true⟩, ⟨2, 102, 101, true⟩] 1 =
      some (([⟨0, 100, 0, true⟩, ⟨1, 101, 100, true⟩, ⟨2, 102, 101, true⟩] :
          List Block).take 2,
        ([⟨0, 100, 0, true⟩, ⟨1, 101, 100, true⟩, ⟨2, 102, 101, true⟩] :
          List Block).drop 2) :=
  (ledger_append_revert_roundtrip ⟨0, 100, 0, true⟩
      [⟨1, 101, 100, true⟩, ⟨2, 102, 101, true⟩]
      [⟨0, 100, 0, true⟩, ⟨1, 101, 100, true⟩, ⟨2, 102, 101, true⟩] 1
      rfl (by decide) (by decide)).1

/-! ## C5: outbound gossip dedup in `Peers::send` -/

theorem dedupStep_lastSeenOut (E : Env) (now : Nat) (s : Peers) (p : SockAddr) (m : Message)
    (k : SockAddr × Bool × Nat) :
    lastSeenOut (Peers.dedupStep E now s p m).1 k =
      if sentKey ⟨p, m, now⟩ = some k then now else lastSeenOut s k := by
  obtain ⟨q, kb, id⟩ := k
  cases m with
  | UnconfirmedBlock b =>
    cases kb with
    | false =>
      rw [if_neg (fun hk => by cases hk)]
      rfl
    | true =>
      have hkey : sentKey ⟨p, .UnconfirmedBlock b, now⟩ = some (p, true, b.hash) := rfl
      show (lookupA id ((lookupA q (insertA p _ s.seen_outbound_blocks)).getD [])).getD 0 = _
      rw [lookupA_insertA]
      by_cases hpq : p = q
      · subst hpq
        rw [if_pos rfl, Option.getD_some, lookupA_insertA]
        by_cases hid : b.hash = id
        · subst hid
          rw [if_pos rfl, if_pos hkey]
          rfl
        · have hcond : ¬ (sentKey ⟨p, .UnconfirmedBlock b, now⟩ = some (p, true, id)) := by
            intro hk
            rw [hkey] at hk
            exact hid (congrArg (fun t => t.2.2) (Option.some.inj hk))
          rw [if_neg hid, if_neg hcond]
          rfl
      · have hcond : ¬ (sentKey ⟨p, .UnconfirmedBlock b, now⟩ = some (q, true, id)) := by
          intro hk
          rw [hkey] at hk
          exact hpq (congrArg (fun t => t.1) (Option.some.inj hk))
        rw [if_neg hpq, if_neg hcond]
        rfl
  | UnconfirmedTransaction tr =>
    cases kb with
    | true =>
      rw [if_neg (fun hk => by cases hk)]
      rfl
    | false =>
      have hkey : sentKey ⟨p, .UnconfirmedTransaction tr, now⟩ =
          some (p, false, tr.txid) := rfl
      show (lookupA id ((lookupA q (insertA p _ s.seen_outbound_transactions)).getD [])).getD 0 = _
      rw [lookupA_insertA]
      by_cases hpq : p = q
      · subst hpq
        rw [if_pos rfl, Option.getD_some, lookupA_insertA]
        by_cases hid : tr.txid = id
        · subst hid
          rw [if_pos rfl, if_pos hkey]
          rfl
        · have hcond : ¬ (sentKey ⟨p, .UnconfirmedTransaction tr, now⟩ =
              some (p, false, id)) := by
            intro hk
            rw [hkey] at hk
            exact hid (congrArg (fun t => t.2.2) (Option.some.inj hk))
          rw [if_neg hid, if_neg hcond]
          rfl
      · have hcond : ¬ (sentKey ⟨p, .UnconfirmedTransaction tr, now⟩ =
            some (q, false, id)) := by
          intro hk
          rw [hkey] at hk
          exact hpq (congrArg (fun t => t.1) (Option.some.inj hk))
        rw [if_neg hpq, if_neg hcond]
        rfl
  | BlockRequest a c => rw [if_neg (fun hk => by cases hk)]; rfl
  | BlockResponse block => rw [if_neg (fun hk => by cases hk)]; rfl
  | ChallengeRequest a c d e => rw [if_neg (fun hk => by cases hk)]; rfl
  | ChallengeResponse hd => rw [if_neg (fun hk => by cases hk)]; rfl
  | Disconnect => rw [if_neg (fun hk => by cases hk)]; rfl
  | PeerRequest => rw [if_neg (fun hk => by cases hk)]; rfl
  | PeerResponse addrs => rw [if_neg (fun hk => by cases hk)]; rfl
  | Ping a c d => rw [if_neg (fun hk => by cases hk)]; rfl
  | Pong f => rw [if_neg (fun hk => by cases hk)]; rfl
  | Unused => rw [if_neg (fun hk => by cases hk)]; rfl

theorem send_lastSeenOut (E : Env) (now : Nat) (s : Peers) (p : SockAddr) (m : Message)
    (k : SockAddr × Bool × Nat) :
    lastSeenOut (Peers.send E now s p m).1 k =
      if sentKey ⟨p, m, now⟩ = some k ∧ s.is_connected_to p = true then now
      else lastSeenOut s k := by
  unfold Peers.send
  cases hl : lookupA p s.connected_peers with
  | none =>
    have hic : s.is_connected_to p = false := by
      unfold Peers.is_connected_to
      rw [hl]
      rfl
    rw [if_neg (fun hk => by rw [hic] at hk; cases hk.2)]
  | some v =>
    obtain ⟨n, ch⟩ := v
    have hic : s.is_connected_to p = true := by
      unfold Peers.is_connected_to
      rw [hl]
      rfl
    dsimp only
    split
    · split
      · show lastSeenOut (Peers.dedupStep E now s p m).1 k = _
        rw [dedupStep_lastSeenOut]
        by_cases hk : sentKey ⟨p, m, now⟩ = some k
        · rw [if_pos hk, if_pos ⟨hk, hic⟩]
        · rw [if_neg hk, if_neg (fun hc => hk hc.1)]
      · show lastSeenOut (Peers.dedupStep E now s p m).1 k = _
        rw [dedupStep_lastSeenOut]
        by_cases hk : sentKey ⟨p, m, now⟩ = some k
        · rw [if_pos hk, if_pos ⟨hk, hic⟩]
        · rw [if_neg hk, if_neg (fun hc => hk hc.1)]
    · show lastSeenOut (Peers.dedupStep E now s p m).1 k = _
      rw [dedupStep_lastSeenOut]
      by_cases hk : sentKey ⟨p, m, now⟩ = some k
      · rw [if_pos hk, if_pos ⟨hk, hic⟩]
      · rw [if_neg hk, if_neg (fun hc => hk hc.1)]

theorem ready_gap (E : Env) (now : Nat) (s : Peers) (p : SockAddr) (m : Message)
    (k : SockAddr × Bool × Nat)
    (hr : Peers.is_ready_to_send E now s p m = true)
    (hk : sentKey ⟨p, m, now⟩ = some k) :
    E.RADIO_SILENCE_IN_SECS < now - lastSeenOut s k := by
  cases m with
  | UnconfirmedBlock b =>
    have hk' : (some (p, true, b.hash) : Option (SockAddr × Bool × Nat)) = some k := hk
    obtain rfl := Option.some.inj hk'
    exact of_decide_eq_true hr
  | UnconfirmedTransaction tr =>
    have hk' : (some (p, false, tr.txid) : Option (SockAddr × Bool × Nat)) = some k := hk
    obtain rfl := Option.some.inj hk'
    exact of_decide_eq_true hr
  | BlockRequest a c => cases hk
  | BlockResponse block => cases hk
  | ChallengeRequest a c d e => cases hk
  | ChallengeResponse hd => cases hk
  | Disconnect => cases hk
  | PeerRequest => cases hk
  | PeerResponse addrs => cases hk
  | Ping a c d => cases hk
  | Pong f => cases hk
  | Unused => cases hk

theorem sendMany_dedup_aux (E : Env) :
    ∀ (trace : List (Nat × SockAddr × Message)) (s : Peers) (log0 : List Sent),
      List.Pairwise (fun a b => a.1 ≤ b.1) trace →
      (∀ e ∈ trace, ∀ x ∈ log0, x.time ≤ e.1) →
      SendLogInv s log0 →
      List.Pairwise (gossipGapKey E) log0 →
      List.Pairwise (gossipGapKey E) (log0 ++ (Peers.sendMany E s trace).2) ∧
      SendLogInv (Peers.sendMany E s trace).1 (log0 ++ (Peers.sendMany E s trace).2) := by
  intro trace
  induction trace with
  | nil =>
    intro s log0 _ _ hinv hpw
    rw [show (Peers.sendMany E s []).2 = [] from rfl, List.append_nil]
    exact ⟨hpw, hinv⟩
  | cons e rest ih =>
    obtain ⟨t, p, m⟩ := e
    intro s log0 hsort hbound hinv hpw
    have hsort' : List.Pairwise (fun a b => a.1 ≤ b.1) rest := (List.pairwise_cons.mp hsort).2
    have hhead : ∀ e' ∈ rest, t ≤ e'.1 := (List.pairwise_cons.mp hsort).1
    have hconn_of_out : (Peers.send E t s p m).2 ≠ [] → s.is_connected_to p = true := by
      intro hne
      rcases send_out_characterization E t s p m with hout | ⟨_, ⟨n, hn⟩, _⟩
      · exact absurd hout hne
      · unfold Peers.is_connected_to
        rw [hn]
        rfl
    -- invariant and pairwise state after the first send
    have hinv1 : SendLogInv (Peers.send E t s p m).1
        (log0 ++ (Peers.send E t s p m).2) := by
      intro x hx k hk
      rcases List.mem_append.mp hx with hx | hx
      · rw [send_lastSeenOut]
        by_cases hc : sentKey ⟨p, m, t⟩ = some k ∧ s.is_connected_to p = true
        · rw [if_pos hc]
          exact hbound (t, p, m) (List.mem_cons_self _ _) x hx
        · rw [if_neg hc]
          exact hinv x hx k hk
      · rcases send_out_characterization E t s p m with hout | ⟨hout, ⟨n, hn⟩, _⟩
        · rw [hout] at hx; cases hx
        · rw [hout] at hx
          rcases List.mem_singleton.mp hx with rfl
          rw [send_lastSeenOut, if_pos ⟨hk, by unfold Peers.is_connected_to; rw [hn]; rfl⟩]
    have hpw1 : List.Pairwise (gossipGapKey E) (log0 ++ (Peers.send E t s p m).2) := by
      rcases send_out_characterization E t s p m with hout | ⟨hout, ⟨n, hn⟩, hready⟩
      · rw [hout, List.append_nil]; exact hpw
      · rw [hout]
        rw [List.pairwise_append]
        refine ⟨hpw, List.pairwise_singleton _ _, ?_⟩
        intro x hx y hy k hkx hky
        rcases List.mem_singleton.mp hy with rfl
        have hgap := ready_gap E t s p m k hready hky
        have hle := hinv x hx k hkx
        have hmono : t - lastSeenOut s k ≤ t - x.time := Nat.sub_le_sub_left hle t
        show E.RADIO_SILENCE_IN_SECS < t - x.time
        omega
    have hbound1 : ∀ e' ∈ rest, ∀ x ∈ log0 ++ (Peers.send E t s p m).2, x.time ≤ e'.1 := by
      intro e' he' x hx
      rcases List.mem_append.mp hx with hx | hx
      · exact hbound e' (List.mem_cons_of_mem _ he') x hx
      · rcases send_out_characterization E t s p m with hout | ⟨hout, _, _⟩
        · rw [hout] at hx; cases hx
        · rw [hout] at hx
          rcases List.mem_singleton.mp hx with rfl
          exact hhead e' he'
    have hfinal := ih (Peers.send E t s p m).1 (log0 ++ (Peers.send E t s p m).2)
      hsort' hbound1 hinv1 hpw1
    simp only [Peers.sendMany]
    rw [← List.append_assoc]
    exact hfinal

/-- C5 -- for `MessageSend` of gossip to a connected peer: (i)/(ii) an
`UnconfirmedBlock` (resp. `UnconfirmedTransaction`) is skipped — nothing
is placed on the outbound channel — whenever the time since the same item
was last sent to that peer is below `RADIO_SILENCE_IN_SECS`;
(iii)/(iv) the per-(peer, item) timestamp is refreshed to `now` whether or
not the message is sent; (v) when the outbound channel is closed and the
message is ready to send, the send failure removes the peer from
`connected_peers` (and nothing is delivered); (vi) consequently, along any
chronologically ordered sequence of sends, two deliveries of the same
gossip item to the same peer are always more than `RADIO_SILENCE_IN_SECS`
apart — at most one copy per silence window. -/
theorem gossip_send_dedup (E : Env) :
    (∀ (now : Nat) (s : Peers) (peer : SockAddr) (b : Block) (n : Nat) (ch : Bool),
      lookupA peer s.connected_peers = some (n, ch) →
      now - lastSeenOut s (peer, true, b.hash) < E.RADIO_SILENCE_IN_SECS →
      (Peers.send E now s peer (.UnconfirmedBlock b)).2 = []) ∧
    (∀ (now : Nat) (s : Peers) (peer : SockAddr) (tr : Transaction) (n : Nat) (ch : Bool),
      lookupA peer s.connected_peers = some (n, ch) →
      now - lastSeenOut s (peer, false, tr.txid) < E.RADIO_SILENCE_IN_SECS →
      (Peers.send E now s peer (.UnconfirmedTransaction tr)).2 = []) ∧
    (∀ (now : Nat) (s : Peers) (peer : SockAddr) (b : Block) (n : Nat) (ch : Bool),
      lookupA peer s.connected_peers = some (n, ch) →
      lastSeenOut (Peers.send E now s peer (.UnconfirmedBlock b)).1
        (peer, true, b.hash) = now) ∧
    (∀ (now : Nat) (s : Peers) (peer : SockAddr) (tr : Transaction) (n : Nat) (ch : Bool),
      lookupA peer s.connected_peers = some (n, ch) →
      lastSeenOut (Peers.send E now s peer (.UnconfirmedTransaction tr)).1
        (peer, false, tr.txid) = now) ∧
    (∀ (now : Nat) (s : Peers) (peer : SockAddr) (m : Message) (n : Nat),
      lookupA peer s.connected_peers = some (n, false) →
      Peers.is_ready_to_send E now s peer m = true →
      (Peers.send E now s peer m).1.is_connected_to peer = false ∧
      (Peers.send E now s peer m).2 = []) ∧
    (∀ (trace : List (Nat × SockAddr × Message)) (s : Peers),
      List.Pairwise (fun a b => a.1 ≤ b.1) trace →
      List.Pairwise (fun x y => x.peer = y.peer → x.message = y.message →
          x.message.gossip = true → E.RADIO_SILENCE_IN_SECS < y.time - x.time)
        (Peers.sendMany E s trace).2) := by
  have hskip : ∀ (now : Nat) (s : Peers) (peer : SockAddr) (m : Message) (n : Nat) (ch : Bool),
      lookupA peer s.connected_peers = some (n, ch) →
      Peers.is_ready_to_send E now s peer m = false →
      (Peers.send E now s peer m).2 = [] := by
    intro now s peer m n ch hl hr
    unfold Peers.send
    rw [hl]
    dsimp only
    split
    · rename_i hstep
      rw [dedupStep_ready, hr] at hstep
      cases hstep
    · rfl
  refine ⟨?_, ?_, ?_, ?_, ?_, ?_⟩
  · intro now s peer b n ch hl hlt
    refine hskip now s peer _ n ch hl ?_
    unfold Peers.is_ready_to_send
    rw [decide_eq_false_iff_not]
    show ¬ (E.RADIO_SILENCE_IN_SECS < now - lastSeenOut s (peer, true, b.hash))
    omega
  · intro now s peer tr n ch hl hlt
    refine hskip now s peer _ n ch hl ?_
    unfold Peers.is_ready_to_send
    rw [decide_eq_false_iff_not]
    show ¬ (E.RADIO_SILENCE_IN_SECS < now - lastSeenOut s (peer, false, tr.txid))
    omega
  · intro now s peer b n ch hl
    rw [send_lastSeenOut]
    rw [if_pos ⟨rfl, by unfold Peers.is_connected_to; rw [hl]; rfl⟩]
  · intro now s peer tr n ch hl
    rw [send_lastSeenOut]
    rw [if_pos ⟨rfl, by unfold Peers.is_connected_to; rw [hl]; rfl⟩]
  · intro now s peer m n hl hr
    unfold Peers.send
    rw [hl]
    dsimp only
    rw [show (Peers.dedupStep E now s peer m).2 = true by rw [dedupStep_ready]; exact hr]
    rw [if_pos rfl, if_neg (by decide : ¬(false = true))]
    constructor
    · unfold Peers.is_connected_to
      show (lookupA peer (eraseA peer (Peers.dedupStep E now s peer m).1.connected_peers)).isSome
        = false
      rw [lookupA_eraseA, if_pos rfl]
      rfl
    · rfl
  · intro trace s hsort
    have := sendMany_dedup_aux E trace s [] hsort
      (by intro e _ x hx; cases hx) (by intro x hx; cases hx) List.Pairwise.nil
    rw [List.nil_append] at this
    refine this.1.imp ?_
    intro x y hxy hpeer hmsg hgossip
    cases hmx : x.message with
    | UnconfirmedBlock b =>
      apply hxy (x.peer, true, b.hash)
      · show sentKey x = some (x.peer, true, b.hash)
        unfold sentKey
        rw [hmx]
      · show sentKey y = some (x.peer, true, b.hash)
        unfold sentKey
        rw [← hmsg, hmx, hpeer]
    | UnconfirmedTransaction tr =>
      apply hxy (x.peer, false, tr.txid)
      · show sentKey x = some (x.peer, false, tr.txid)
        unfold sentKey
        rw [hmx]
      · show sentKey y = some (x.peer, false, tr.txid)
        unfold sentKey
        rw [← hmsg, hmx, hpeer]
    | BlockRequest a c => rw [hmx] at hgossip; cases hgossip
    | BlockResponse block => rw [hmx] at hgossip; cases hgossip
    | ChallengeRequest a c d e => rw [hmx] at hgossip; cases hgossip
    | ChallengeResponse hd => rw [hmx] at hgossip; cases hgossip
    | Disconnect => rw [hmx] at hgossip; cases hgossip
    | PeerRequest => rw [hmx] at hgossip; cases hgossip
    | PeerResponse addrs => rw [hmx] at hgossip; cases hgossip
    | Ping a c d => rw [hmx] at hgossip; cases hgossip
    | Pong f => rw [hmx] at hgossip; cases hgossip
    | Unused => rw [hmx] at hgossip; cases hgossip

/-- Witness for `gossip_send_dedup`: a block sent to `addrA` five seconds
after it was last sent is skipped. -/
theorem gossip_send_dedup_witness :
    (Peers.send sampleEnv 1000
        { samplePeersOpen with seen_outbound_blocks := [(addrA, [(701, 995)])] }
        addrA (.UnconfirmedBlock (sampleBlock 1))).2 = [] :=
  (gossip_send_dedup sampleEnv).1 1000
    { samplePeersOpen with seen_outbound_blocks := [(addrA, [(701, 995)])] }
    addrA (sampleBlock 1) 41 true (by decide) (by decide)
